import Mathlib

/-!
Verification of the data-treatment pipeline in `src/data_treatment.py`
(Case-Localiza repository).

The pipeline works on a pandas DataFrame with a fixed, a-priori known
schema.  We embed a DataFrame as a list of rows whose cells are tagged
values (`Cell`): a string, a rational number, or the missing marker
(pandas `NaN`/`NaT`).  Machine floats are modelled by `ℚ`; pandas
operations used by the source (`pd.to_numeric(errors := coerce)`,
`astype(str)`, `groupby(...).median()`, `fillna`, boolean masks,
`drop_duplicates`, `sort_values`, `nlargest`) are given explicit
executable models below, each next to the stage that uses it.
-/

namespace CaseLocaliza

/-- A single DataFrame cell: a string, a number, or the missing marker
(pandas `NaN`). -/
inductive Cell where
  | str : String → Cell
  | num : ℚ → Cell
  | missing : Cell
  deriving DecidableEq, Repr

/-- One record of the transaction table, with the schema used by
`data_treatment.py` (all columns the pipeline reads or writes). -/
structure Row where
  sending_address : Cell
  receiving_address : Cell
  ip_prefix : Cell
  transaction_type : Cell
  location_region : Cell
  purchase_pattern : Cell
  age_group : Cell
  anomaly : Cell
  amount : Cell
  login_frequency : Cell
  session_duration : Cell
  risk_score : Cell
  timestamp : Cell
  deriving DecidableEq, Repr

/-- A DataFrame: ordered list of rows over the fixed schema. -/
abbrev Table := List Row

/-! ### Numeric conversion (`pd.to_numeric(..., errors='coerce')`)

We model float parsing of decimal literals: optional sign, digits with an
optional fractional part.  Strings that do not have this shape (null
sentinels such as `"none"`, `""`, or garbage such as `"abc"`) convert to
the missing marker, exactly as `errors='coerce'` produces `NaN`. -/

/-- Numeric value of a list of decimal digits. -/
def natOfDigits (cs : List Char) : ℕ :=
  cs.foldl (fun a c => 10 * a + (c.toNat - 48)) 0

/-- Parse an unsigned decimal literal (`"12"`, `"12.5"`, `".5"`, `"12."`). -/
def parseUnsigned (cs : List Char) : Option ℚ :=
  let intPart := cs.takeWhile Char.isDigit
  let rest := cs.dropWhile Char.isDigit
  match rest with
  | [] => if intPart.isEmpty then none else some (natOfDigits intPart : ℚ)
  | '.' :: frac =>
      if frac.all Char.isDigit && !(intPart.isEmpty && frac.isEmpty) then
        some ((natOfDigits intPart : ℚ) + (natOfDigits frac : ℚ) / (10 : ℚ) ^ frac.length)
      else none
  | _ => none

/-- Parse a signed decimal literal. -/
def parseSigned (cs : List Char) : Option ℚ :=
  match cs with
  | '-' :: rest => (parseUnsigned rest).map (fun q => -q)
  | '+' :: rest => parseUnsigned rest
  | _ => parseUnsigned cs

/-- Strip leading and trailing spaces (model of the whitespace tolerance
of `pd.to_numeric`). -/
def trimSpaces (cs : List Char) : List Char :=
  ((cs.dropWhile (fun c => decide (c = ' '))).reverse.dropWhile
    (fun c => decide (c = ' '))).reverse

/-- Parse a string as a number, ignoring surrounding whitespace. -/
def parseRatStr (s : String) : Option ℚ :=
  parseSigned (trimSpaces s.data)

/-- `pd.to_numeric(cell, errors='coerce')`: numbers pass through, strings
are parsed, anything unparsable (and `NaN`) becomes missing (`none`). -/
def toNumeric : Cell → Option ℚ
  | .num q => some q
  | .missing => none
  | .str s => parseRatStr s

/-- Re-inject an optional number into a cell (`NaN` for `none`). -/
def optToCell : Option ℚ → Cell
  | some q => Cell.num q
  | none => Cell.missing

/-- Numeric value of a cell of an already-converted (float) column:
`.num q` holds `q`, anything else is `NaN`. -/
def cellVal : Cell → Option ℚ
  | .num q => some q
  | _ => none

/-! ### String conversion (`astype(str)`) and lower-casing

`astype(str)` renders every cell as a string; `NaN` renders as `"nan"`.
The exact rendering Python uses for floats is irrelevant to every claim
(no claim inspects the string form of a numeric cell), so we use Lean's
rational rendering as the model. -/

/-- Python `str()` of a cell (`astype(str)` applied cellwise). -/
def stringifyCell : Cell → String
  | .str s => s
  | .num q => toString q
  | .missing => "nan"

/-- ASCII lower-casing of one character (model of Python `str.lower`;
the data only contains ASCII region names): codes 65–90 (`A`–`Z`) shift
up by 32, everything else is unchanged. -/
def lowerChar (c : Char) : Char :=
  if 65 ≤ c.toNat ∧ c.toNat ≤ 90 then Char.ofNat (c.toNat + 32) else c

/-- ASCII lower-casing of a string. -/
def lowerStr (s : String) : String :=
  String.mk (s.data.map lowerChar)

/-! ### Median (pandas `Series.median`, `groupby(...).median()`)

Standard definition: middle order statistic for odd-sized samples,
average of the two central order statistics for even; `NaN` (`none`) on
an empty sample. -/

/-- Median of a list of rationals; `none` when the list is empty. -/
def median : List ℚ → Option ℚ
  | [] => none
  | x :: xs =>
      let ys := List.insertionSort (· ≤ ·) (x :: xs)
      let n := ys.length
      if n % 2 = 1 then some (ys.getD (n / 2) 0)
      else some ((ys.getD (n / 2 - 1) 0 + ys.getD (n / 2) 0) / 2)

/-! ### Stage 1 — address validation (source lines 140–151) -/

/-- `.str.len() == 42` on one cell: non-strings give `NaN`, and a `NaN`
entry of a boolean mask selects nothing (is `False`). -/
def cellLen42 : Cell → Bool
  | .str s => s.length == 42
  | _ => false

/-- `s.startswith('0x')` on a string, at the character level. -/
def starts0x (s : String) : Bool :=
  List.isPrefixOf ['0', 'x'] s.data

/-- `.str.startswith('0x')` on one cell, `NaN`-as-`False` as above. -/
def cellStarts0x : Cell → Bool
  | .str s => starts0x s
  | _ => false

/-- The boolean mask of source lines 143–146: both addresses have length
42 and start with `0x`. -/
def addrMask (r : Row) : Bool :=
  cellLen42 r.sending_address && cellLen42 r.receiving_address &&
  cellStarts0x r.sending_address && cellStarts0x r.receiving_address

/-- Stage 1: keep only rows whose addresses pass `addrMask`; the filter
is only executed when at least one row fails (source line 149). -/
def validateAddresses (rows : Table) : Table :=
  let invalid := rows.countP (fun r => !addrMask r)
  if 0 < invalid then rows.filter addrMask else rows

/-! ### Stage 2 — `ip_prefix` normalization (source lines 153–162) -/

/-- The literal list of source line 157. -/
def ipBadList : List String := ["0.0", "0", "nan", "NaN", "None", "none"]

/-- `isin(ipBadList)` on one (already stringified) cell. -/
def ipBadCell : Cell → Bool
  | .str s => decide (s ∈ ipBadList)
  | _ => false

/-- Stage 2: `astype(str)` the column, then rewrite matching values to
`'INVALID_IP'` (the rewrite is executed only when at least one value
matches, source line 159). -/
def treatIp (rows : Table) : Table :=
  let rows1 := rows.map (fun r => { r with ip_prefix := Cell.str (stringifyCell (Row.ip_prefix r)) })
  let cnt := rows1.countP (fun r => ipBadCell (Row.ip_prefix r))
  if 0 < cnt then
    rows1.map (fun r =>
      if ipBadCell (Row.ip_prefix r) then { r with ip_prefix := Cell.str "INVALID_IP" } else r)
  else rows1

/-! ### Stages 3, 4 — region-wise median imputation (source lines 164–238)

The risk-score block (lines 177–202) and the amount block (lines 213–238)
are textually identical up to the column name, so both are embedded
through a single core parameterised by a column accessor.  Only the
trigger differs: the risk stage counts null-sentinel strings *before*
numeric conversion (line 168) while the amount stage counts missing
values *after* conversion (line 208). -/

/-- Access to one numeric column of a `Row`, with the two laws the
generic imputation proofs need (they hold definitionally for the two
instantiations used by the source). -/
structure ColAcc where
  get : Row → Cell
  set : Cell → Row → Row
  get_set : ∀ c r, get (set c r) = c
  set_get : ∀ r, set (get r) r = r
  set_set : ∀ c c' r, set c (set c' r) = set c r
  region_set : ∀ c r, (set c r).location_region = r.location_region

/-- The `risk_score` column. -/
def riskAcc : ColAcc where
  get := fun r => r.risk_score
  set := fun c r => { r with risk_score := c }
  get_set := fun _ _ => rfl
  set_get := fun r => by cases r; rfl
  set_set := fun _ _ _ => rfl
  region_set := fun _ _ => rfl

/-- The `amount` column. -/
def amountAcc : ColAcc where
  get := fun r => r.amount
  set := fun c r => { r with amount := c }
  get_set := fun _ _ => rfl
  set_get := fun r => by cases r; rfl
  set_set := fun _ _ _ => rfl
  region_set := fun _ _ => rfl

/-- The null-sentinel strings of source line 168. -/
def riskSentinels : List Cell :=
  [Cell.str "none", Cell.str "None", Cell.str "NULL", Cell.str "null", Cell.str ""]

/-- `isin(['none', 'None', 'NULL', 'null', '']).sum()` (line 168). -/
def sentinelCount (A : ColAcc) (rows : Table) : ℕ :=
  rows.countP (fun r => decide (A.get r ∈ riskSentinels))

/-- `pd.to_numeric(col, errors='coerce')` applied to a whole column
(lines 173 and 207). -/
def convertCol (A : ColAcc) (rows : Table) : Table :=
  rows.map (fun r => A.set (optToCell (toNumeric (A.get r))) r)

/-- `isna().sum()` for a column. -/
def missingCount (A : ColAcc) (rows : Table) : ℕ :=
  rows.countP (fun r => decide (A.get r = Cell.missing))

/-- All non-missing values of a column. -/
def colVals (A : ColAcc) (rows : Table) : List ℚ :=
  rows.filterMap (fun r => cellVal (A.get r))

/-- First occurrences of each distinct value (used for the group keys of
`groupby('location_region')`, which skips missing keys; the fills for the
individual groups touch disjoint row sets, so the key order chosen by
pandas is irrelevant, and we take first-occurrence order). -/
def dedupFirstAux {α : Type} [DecidableEq α] (seen : List α) : List α → List α
  | [] => []
  | x :: xs => if x ∈ seen then dedupFirstAux seen xs else x :: dedupFirstAux (x :: seen) xs

/-- Keep the first occurrence of each distinct element. -/
def dedupFirst {α : Type} [DecidableEq α] (l : List α) : List α :=
  dedupFirstAux [] l

/-- The distinct non-missing `location_region` keys of a table. -/
def regionsOf (rows : Table) : List Cell :=
  dedupFirst (rows.filterMap
    (fun r => if r.location_region = Cell.missing then none else some r.location_region))

/-- Median of a column restricted to one region
(`groupby('location_region')[col].median()` for key `k`, lines 178/214). -/
def regionMedian (A : ColAcc) (rows : Table) (k : Cell) : Option ℚ :=
  median ((rows.filter (fun r => decide (r.location_region = k))).filterMap
    (fun r => cellVal (A.get r)))

/-- `df.loc[(region == k) & col.isna(), col] = m` (lines 187/191 and
223/227); assigning `NaN` (`m = none`) leaves the cell missing. -/
def maskFillRegion (A : ColAcc) (k : Cell) (m : Option ℚ) (rows : Table) : Table :=
  rows.map (fun r =>
    if r.location_region = k ∧ A.get r = Cell.missing then A.set (optToCell m) r else r)

/-- `col.fillna(m)` (lines 201/237). -/
def fillAllMissing (A : ColAcc) (m : Option ℚ) (rows : Table) : Table :=
  rows.map (fun r => if A.get r = Cell.missing then A.set (optToCell m) r else r)

/-- The imputation block shared verbatim by lines 177–202 and 213–238:
per-region medians are computed once, each region's missing entries are
filled with its median, and if anything is still missing it is filled
with the global median of the column at that point. -/
def imputeCore (A : ColAcc) (rows : Table) : Table :=
  let meds := (regionsOf rows).map (fun k => (k, regionMedian A rows k))
  let r1 := meds.foldl (fun acc km => maskFillRegion A km.1 km.2 acc) rows
  let rem := missingCount A r1
  if 0 < rem then fillAllMissing A (median (colVals A r1)) r1 else r1

/-- The column after the per-region pass of `imputeCore` (the first
`let` steps of `imputeCore`, factored out for the proofs). -/
def pass1Col (A : ColAcc) (rows : Table) : Table :=
  ((regionsOf rows).map (fun k => (k, regionMedian A rows k))).foldl
    (fun acc km => maskFillRegion A km.1 km.2 acc) rows

/-- The global median `imputeCore` uses for its second pass. -/
def globalAfterOp (A : ColAcc) (rows : Table) : Option ℚ :=
  median (colVals A (pass1Col A rows))

/-- Row-level characterization of `imputeCore` (proved below): a missing
cell receives its region's median when the region has one, and otherwise
the global median of the column after the per-region pass. -/
def impRowOp (A : ColAcc) (rows : Table) (r : Row) : Row :=
  if A.get r = Cell.missing then
    if r.location_region = Cell.missing then A.set (optToCell (globalAfterOp A rows)) r
    else
      match regionMedian A rows r.location_region with
      | some m => A.set (Cell.num m) r
      | none => A.set (optToCell (globalAfterOp A rows)) r
  else r

/-- Stage 3 pattern (lines 164–202): count sentinel strings, convert the
column, and impute only when at least one sentinel was present. -/
def riskStageG (A : ColAcc) (rows : Table) : Table :=
  let sent := sentinelCount A rows
  let conv := convertCol A rows
  if 0 < sent then imputeCore A conv else conv

/-- Stage 4 pattern (lines 204–238): convert the column and impute when
anything is missing after conversion. -/
def amountStageG (A : ColAcc) (rows : Table) : Table :=
  let conv := convertCol A rows
  if 0 < missingCount A conv then imputeCore A conv else conv

/-- Stage 3: `risk_score` treatment. -/
def treatRiskScore (rows : Table) : Table := riskStageG riskAcc rows

/-- Stage 4: `amount` treatment. -/
def treatAmount (rows : Table) : Table := amountStageG amountAcc rows

/-! ### Stage 5 — timestamp validation (source lines 242–255)

`pd.to_datetime(col, unit='s', errors='coerce')` is modelled by keeping
the instant as its epoch-second count: numeric values pass through,
unparsable ones become `NaT` (missing).  The future/ancient timestamp
checks of lines 248–255 only print advisory counts and are presentation,
so they do not appear in the table transformation. -/

/-- Stage 5: convert the timestamp column. -/
def treatTimestamp (rows : Table) : Table :=
  rows.map (fun r => { r with timestamp := optToCell (toNumeric r.timestamp) })

/-! ### Stage 6 — region normalization (source lines 257–272) -/

/-- The invalid-region sentinels of source line 268. -/
def regionBadList : List String := ["0", "nan", "none", ""]

/-- `isin(regionBadList)` on one (already stringified) cell. -/
def regionBad (r : Row) : Bool :=
  match r.location_region with
  | .str s => decide (s ∈ regionBadList)
  | _ => false

/-- Stage 6: `astype(str).str.lower()` the region column, then drop rows
whose region is an invalid sentinel (the drop is executed only when at
least one row matches, source line 270). -/
def treatRegion (rows : Table) : Table :=
  let rows1 := rows.map
    (fun r => { r with location_region := Cell.str (lowerStr (stringifyCell r.location_region)) })
  let cnt := rows1.countP regionBad
  if 0 < cnt then rows1.filter (fun r => !regionBad r) else rows1

/-! ### Stage 7 — exact-duplicate removal (source lines 274–281) -/

/-- Stage 7: `drop_duplicates()` — keep the first occurrence of each
distinct row (`dedupFirst` on rows). -/
def dropDuplicates (rows : Table) : Table := dedupFirst rows

/-- `enhanced_data_cleaning` (source lines 134–288): the seven cleaning
stages in order, on a working copy of the input. -/
def enhanced_data_cleaning (df : Table) : Table :=
  let df1 := validateAddresses df
  let df2 := treatIp df1
  let df3 := treatRiskScore df2
  let df4 := treatAmount df3
  let df5 := treatTimestamp df4
  let df6 := treatRegion df5
  dropDuplicates df6

/-! ### The local-variable discipline of `enhanced_data_cleaning`

The source copies its argument (`df_clean = df.copy()`, line 137) and
every later statement reads and assigns only `df_clean`; `df` is never
written again.  We make this visible by threading the two local bindings
explicitly. -/

/-- The two table bindings alive inside `enhanced_data_cleaning`. -/
structure CleanLocals where
  df : Table
  df_clean : Table

/-- The body of `enhanced_data_cleaning` as a transformer of its local
bindings: line 137 copies `df` into `df_clean`, and each stage rereads
and reassigns only `df_clean`, exactly as in the source. -/
def enhancedCleaningProg (s : CleanLocals) : CleanLocals :=
  let s := { s with df_clean := s.df }
  let s := { s with df_clean := validateAddresses s.df_clean }
  let s := { s with df_clean := treatIp s.df_clean }
  let s := { s with df_clean := treatRiskScore s.df_clean }
  let s := { s with df_clean := treatAmount s.df_clean }
  let s := { s with df_clean := treatTimestamp s.df_clean }
  let s := { s with df_clean := treatRegion s.df_clean }
  let s := { s with df_clean := dropDuplicates s.df_clean }
  s

/-! ### `validate_data_quality`, out-of-range section (source lines 105–130) -/

/-- A value stored in the `range_issues` dict: either an out-of-range
count, or the conversion-error marker the `except` branch of line 122
would store (the string `"Erro na conversão"`).  That branch is
unreachable: `pd.to_numeric(..., errors='coerce')` is total and never
raises. -/
inductive RangeEntry where
  | count : ℕ → RangeEntry
  | convErr : RangeEntry
  deriving DecidableEq, Repr

/-- `series < q` on one cell of a converted column; comparisons against
`NaN` are `False`. -/
def cellLtB (c : Cell) (q : ℚ) : Bool :=
  match c with
  | .num x => decide (x < q)
  | _ => false

/-- `series > q` on one cell of a converted column; comparisons against
`NaN` are `False`. -/
def cellGtB (c : Cell) (q : ℚ) : Bool :=
  match c with
  | .num x => decide (q < x)
  | _ => false

/-- The bounds table of source lines 106–111. -/
def numericChecks : List (String × ℚ × ℚ) :=
  [("amount", 0, 1000000), ("login_frequency", 0, 50),
   ("session_duration", 0, 1000), ("risk_score", 0, 100)]

/-- Column lookup for the four numeric checks. -/
def numericField (name : String) (r : Row) : Cell :=
  if name = "amount" then r.amount
  else if name = "login_frequency" then r.login_frequency
  else if name = "session_duration" then r.session_duration
  else if name = "risk_score" then r.risk_score
  else Cell.missing

/-- `((series < min) | (series > max)).shape[0]` after coercion
(source lines 117–118). -/
def outOfRangeCount (get : Row → Cell) (lo hi : ℚ) (df : Table) : ℕ :=
  df.countP (fun r =>
    let c := optToCell (toNumeric (get r))
    cellLtB c lo || cellGtB c hi)

/-- The `range_issues` dict of source lines 113–122: one entry per
column with a positive out-of-range count. -/
def rangeIssues (df : Table) : List (String × RangeEntry) :=
  numericChecks.filterMap (fun t =>
    let n := outOfRangeCount (numericField t.1) t.2.1 t.2.2 df
    if 0 < n then some (t.1, RangeEntry.count n) else none)

/-! ### `post_processing_checks` (source lines 290–345) -/

/-- `col == s` on one cell (`False` for non-strings and `NaN`). -/
def cellEqStrB (c : Cell) (s : String) : Bool :=
  decide (c = Cell.str s)

/-- The mask of source lines 301–302, with Python precedence: `&` binds
tighter than `|`. -/
def mismatchMask (r : Row) : Bool :=
  (cellGtB r.risk_score 75 && cellEqStrB r.anomaly "low_risk") ||
  (cellLtB r.risk_score 25 && cellEqStrB r.anomaly "high_risk")

/-- The mask of source lines 315–316. -/
def suspiciousMask (r : Row) : Bool :=
  cellGtB r.amount 50000 && cellEqStrB r.age_group "new"

/-- What `post_processing_checks` computes (the source only prints these;
we return them). -/
structure ConsistencyReport where
  mismatch : Table
  suspicious : Table
  negativeAmounts : ℕ
  longSessions : ℕ
  checksPassed : ℕ
  totalChecks : ℕ
  deriving DecidableEq, Repr

/-- `post_processing_checks` (source lines 290–345): the four advisory
checks; each contributes 1 to `checksPassed` exactly when it flags
nothing. -/
def post_processing_checks (df : Table) : ConsistencyReport :=
  let mismatch := df.filter mismatchMask
  let suspicious := df.filter suspiciousMask
  let neg := df.countP (fun r => cellLtB r.amount 0)
  let lng := df.countP (fun r => cellGtB r.session_duration 500)
  let passed :=
    (if mismatch.length = 0 then 1 else 0) + (if suspicious.length = 0 then 1 else 0) +
    (if neg = 0 then 1 else 0) + (if lng = 0 then 1 else 0)
  ⟨mismatch, suspicious, neg, lng, passed, 4⟩

/-! ### Report 1 — regional risk statistics (source lines 402–412) -/

/-- Half-up rounding to two decimals (`round(2)`; the claims do not
depend on the tie-breaking of float rounding). -/
def round2 (q : ℚ) : ℚ := (round (q * 100) : ℤ) / 100

/-- Mean of a sample; `NaN` on an empty one. -/
def meanQ : List ℚ → Option ℚ
  | [] => none
  | x :: xs => some (((x :: xs).sum) / ((x :: xs).length : ℚ))

/-- Sample variance (`ddof = 1`); `NaN` for samples of size `< 2`.  The
source reports the standard deviation; we carry its square to stay in
`ℚ` (no claim reads this field). -/
def svarQ (xs : List ℚ) : Option ℚ :=
  match xs with
  | [] => none
  | [_] => none
  | l =>
      let m := l.sum / (l.length : ℚ)
      some ((l.map (fun x => (x - m) ^ 2)).sum / ((l.length : ℚ) - 1))

/-- One row of report 1. -/
structure Reg1 where
  location_region : Cell
  average_risk_score : Option ℚ
  stdSq : Option ℚ
  count : ℕ
  deriving DecidableEq, Repr

/-- Sort key for report 1: descending by mean, `NaN` last. -/
def reg1Rel (a b : Reg1) : Prop :=
  (match b.average_risk_score with | some q => (q : WithBot ℚ) | none => ⊥) ≤
  (match a.average_risk_score with | some q => (q : WithBot ℚ) | none => ⊥)

instance : DecidableRel reg1Rel := fun a b => by
  unfold reg1Rel; infer_instance

/-- Report 1 (source lines 402–409): per-region mean, deviation and
count of `risk_score`, sorted descending by mean. -/
def tabela1 (df : Table) : List Reg1 :=
  let groups := (regionsOf df).map (fun k =>
    let vals := (df.filter (fun r => decide (r.location_region = k))).filterMap
      (fun r => cellVal r.risk_score)
    Reg1.mk k ((meanQ vals).map round2) ((svarQ vals).map round2) vals.length)
  List.insertionSort reg1Rel groups

/-! ### Report 2 — top sale addresses (source lines 414–436) -/

/-- The three columns report 2 keeps. -/
structure SaleRec where
  receiving_address : Cell
  amount : Cell
  timestamp : Cell
  deriving DecidableEq, Repr

/-- Sort key of `sort_values('timestamp', ascending=True)`: converted
timestamps ordered by value, `NaT` last (`na_position='last'`). -/
def tsKey (c : Cell) : WithTop ℚ :=
  match c with
  | .num q => (q : WithTop ℚ)
  | _ => ⊤

/-- Row order by ascending timestamp. -/
def tsRel (a b : Row) : Prop := tsKey a.timestamp ≤ tsKey b.timestamp

instance : DecidableRel tsRel := fun a b => by
  unfold tsRel; infer_instance

instance : IsTotal Row tsRel := ⟨fun _ _ => le_total _ _⟩

instance : IsTrans Row tsRel := ⟨fun _ _ _ h h' => le_trans h h'⟩

/-- Sort key for `nlargest(3, 'amount')`: descending by amount, missing
last.  `DataFrame.nlargest` is modelled by its documented equivalence
`sort_values(ascending=False, kind='stable').head(n)`. -/
def amtRel (a b : Row) : Prop :=
  (match b.amount with | .num q => (q : WithBot ℚ) | _ => ⊥) ≤
  (match a.amount with | .num q => (q : WithBot ℚ) | _ => ⊥)

instance : DecidableRel amtRel := fun a b => by
  unfold amtRel; infer_instance

instance : IsTotal Row amtRel := ⟨fun _ _ => le_total _ _⟩

instance : IsTrans Row amtRel := ⟨fun _ _ _ h h' => le_trans h' h⟩

/-- `drop_duplicates(subset=key, keep='last')`: keep an element only if
its key does not occur later. -/
def dedupLastBy {α β : Type} [DecidableEq β] (key : α → β) : List α → List α
  | [] => []
  | x :: xs =>
      if xs.any (fun y => decide (key y = key x)) then dedupLastBy key xs
      else x :: dedupLastBy key xs

/-- The rows with `transaction_type == 'sale'` (source line 416). -/
def salesOf (df : Table) : Table :=
  df.filter (fun r => decide (r.transaction_type = Cell.str "sale"))

/-- Keep, per receiving address, the most recent sale (source lines
419–420). -/
def latestSales (df : Table) : Table :=
  dedupLastBy (fun r => r.receiving_address)
    (List.insertionSort tsRel (salesOf df))

/-- The column selection `[['receiving_address', 'amount', 'timestamp']]`. -/
def saleProj (r : Row) : SaleRec :=
  ⟨r.receiving_address, r.amount, r.timestamp⟩

/-- Report 2 (source lines 414–436): filter to sales (empty report when
none), deduplicate per address keeping the most recent, then take the 3
largest amounts when at least 3 distinct addresses exist, else all. -/
def tabela2 (df : Table) : List SaleRec :=
  let sales := salesOf df
  if sales.isEmpty then []
  else
    let latest := dedupLastBy (fun r => r.receiving_address)
      (List.insertionSort tsRel sales)
    if 3 ≤ latest.length then ((List.insertionSort amtRel latest).take 3).map saleProj
    else latest.map saleProj

/-! ### `run_enhanced_data_pipeline` and `save_df_clean`
(source lines 347–482)

File reading is the excluded I/O layer: `pd.read_csv` either yields a
table, raises `FileNotFoundError` (nonexistent source), or raises some
other exception; the pipeline receives that outcome.  Both `except`
branches (lines 466–473) return `(None, None, None)`. -/

/-- The failures `pd.read_csv` / the surrounding body can raise. -/
inductive PipelineError where
  | fileNotFound : String → PipelineError
  | unexpected : String → PipelineError
  deriving DecidableEq, Repr

/-- `run_enhanced_data_pipeline`: on any load failure return the all-null
triple; on success return the cleaned table and the two reports. -/
def run_enhanced_data_pipeline (source : Except PipelineError Table) :
    Option Table × Option (List Reg1) × Option (List SaleRec) :=
  match source with
  | .error _ => (none, none, none)
  | .ok df =>
      let dfc := enhanced_data_cleaning df
      (some dfc, some (tabela1 dfc), some (tabela2 dfc))

/-- `save_df_clean` (source lines 475–482): writes an artifact only for a
non-null cleaned table; the returned value is the write that happens
(`none` = nothing written). -/
def save_df_clean (dfc : Option Table) : Option (String × Table) :=
  match dfc with
  | some df => some ("data/df_fraud_credit_cleaned.csv", df)
  | none => none

/-! ### Specification-side descriptions

Independent, row-local formulas describing what each stage is claimed to
do; the theorems below relate them to the operational definitions
translated from the source. -/

/-- `c = missing ∨ c is a number` — the possible cells of a converted
numeric column. -/
def cellNumOrMissing (c : Cell) : Prop :=
  c = Cell.missing ∨ ∃ q, c = Cell.num q

/-- Claim-side address test: a string of exactly 42 characters beginning
with `0x`. -/
def AddrClaim (c : Cell) : Prop :=
  ∃ s, c = Cell.str s ∧ s.length = 42 ∧ starts0x s = true

/-- Claim-side result of the IP-normalization stage on one cell. -/
def ipCellSpec (c : Cell) : Cell :=
  let s := stringifyCell c
  Cell.str (if s ∈ ipBadList then "INVALID_IP" else s)

/-- Spec-side per-region median of a numeric column: the median of the
values of rows of region `k` whose numeric conversion succeeds. -/
def regionMedianSpec (A : ColAcc) (rows : Table) (k : Cell) : Option ℚ :=
  median ((rows.filter (fun r => decide (r.location_region = k))).filterMap
    (fun r => toNumeric (A.get r)))

/-- Spec-side value of a cell after the per-region pass: its own
converted value if conversion succeeds, else its region's median
(nothing for a missing region or a region with no convertible value). -/
def pass1Spec (A : ColAcc) (rows : Table) (r : Row) : Option ℚ :=
  match toNumeric (A.get r) with
  | some q => some q
  | none =>
      if r.location_region = Cell.missing then none
      else regionMedianSpec A rows r.location_region

/-- Spec-side global fallback: the median over all non-missing values of
the column after the per-region pass. -/
def globalFallbackSpec (A : ColAcc) (rows : Table) : Option ℚ :=
  median (rows.filterMap (pass1Spec A rows))

/-- Spec-side final value of a cell after the full two-pass imputation:
own value when convertible, else the region median, else the global
fallback. -/
def imputedCellSpec (A : ColAcc) (rows : Table) (r : Row) : Cell :=
  match toNumeric (A.get r) with
  | some q => Cell.num q
  | none =>
      if r.location_region = Cell.missing then optToCell (globalFallbackSpec A rows)
      else
        match regionMedianSpec A rows r.location_region with
        | some m => Cell.num m
        | none => optToCell (globalFallbackSpec A rows)

/-- Spec-side final cell value of the stage-3 pattern for a generic
column: the two-pass imputation runs only when some entry of the column
is one of the null-sentinel strings; otherwise the column is merely
converted. -/
def riskCellSpecG (A : ColAcc) (rows : Table) (r : Row) : Cell :=
  if 0 < sentinelCount A rows then imputedCellSpec A rows r
  else optToCell (toNumeric (A.get r))

/-- Spec-side final cell value of the stage-4 pattern for a generic
column: the two-pass imputation runs whenever some entry is missing after
numeric conversion. -/
def amountCellSpecG (A : ColAcc) (rows : Table) (r : Row) : Cell :=
  if 0 < missingCount A (convertCol A rows) then imputedCellSpec A rows r
  else optToCell (toNumeric (A.get r))

/-- Spec-side final value of a `risk_score` cell for the whole stage. -/
def riskCellSpec (rows : Table) (r : Row) : Cell :=
  riskCellSpecG riskAcc rows r

/-- Spec-side final value of an `amount` cell for the whole stage. -/
def amountCellSpec (rows : Table) (r : Row) : Cell :=
  amountCellSpecG amountAcc rows r

/-! ### Invariants of cleaned tables (for idempotence) -/

/-- What holds of every row of a cleaned table. -/
def CleanRowInv (r : Row) : Prop :=
  addrMask r = true ∧
  (∃ s, Row.ip_prefix r = Cell.str s ∧ s ∉ ipBadList) ∧
  cellNumOrMissing r.risk_score ∧
  cellNumOrMissing r.amount ∧
  cellNumOrMissing r.timestamp ∧
  (∃ s, r.location_region = Cell.str s ∧ lowerStr s = s ∧ s ∉ regionBadList)

/-- What holds of a cleaned table as a whole: every row satisfies
`CleanRowInv`, the amount column is either entirely numeric or entirely
missing, and the table has no duplicate rows. -/
def CleanInv (rows : Table) : Prop :=
  (∀ r ∈ rows, CleanRowInv r) ∧
  ((∀ r ∈ rows, ∃ q, r.amount = Cell.num q) ∨ (∀ r ∈ rows, r.amount = Cell.missing)) ∧
  dedupFirst rows = rows

/-- Spec-side out-of-range test: the numeric conversion succeeds and the
value falls outside the bounds. -/
def OutOfRangeClaim (c : Cell) (lo hi : ℚ) : Prop :=
  ∃ q, toNumeric c = some q ∧ (q < lo ∨ hi < q)

instance (c : Cell) (lo hi : ℚ) : Decidable (OutOfRangeClaim c lo hi) :=
  match h : toNumeric c with
  | some q => decidable_of_iff (q < lo ∨ hi < q) (by simp [OutOfRangeClaim, h])
  | none => isFalse (by simp [OutOfRangeClaim, h])

/-- Sort key for amounts, shared with `amtRel`. -/
def amtKeyCell (c : Cell) : WithBot ℚ :=
  match c with
  | .num q => (q : WithBot ℚ)
  | _ => ⊥

/-! ### Concrete tables for counterexamples and witnesses -/

/-- A fully clean transaction row used as a template for the concrete
tables below. -/
def baseRow : Row where
  sending_address := Cell.str "0x0000000000000000000000000000000000000001"
  receiving_address := Cell.str "0x0000000000000000000000000000000000000002"
  ip_prefix := Cell.str "172.0"
  transaction_type := Cell.str "transfer"
  location_region := Cell.str "europe"
  purchase_pattern := Cell.str "focused"
  age_group := Cell.str "established"
  anomaly := Cell.str "low_risk"
  amount := Cell.num 100
  login_frequency := Cell.num 5
  session_duration := Cell.num 50
  risk_score := Cell.num 40
  timestamp := Cell.num 1600000000

/-- C1 counterexample table: a convertible `risk_score` and a conversion
failure (`"abc"`), but no null-sentinel string. -/
def tblC1 : Table :=
  [{ baseRow with risk_score := Cell.str "10" },
   { baseRow with risk_score := Cell.str "abc",
                  sending_address := Cell.str "0x0000000000000000000000000000000000000003" }]

/-- C2 counterexample table: same shape as `tblC1` (conversion failure,
no sentinel), on which the two stage patterns disagree. -/
def tblC2 : Table :=
  [{ baseRow with risk_score := Cell.str "20" },
   { baseRow with risk_score := Cell.str "xyz",
                  sending_address := Cell.str "0x0000000000000000000000000000000000000004" }]

/-- C2 witness table: contains the sentinel `"none"`, so both stage
patterns impute. -/
def tblC2w : Table :=
  [{ baseRow with risk_score := Cell.str "20" },
   { baseRow with risk_score := Cell.str "none",
                  sending_address := Cell.str "0x0000000000000000000000000000000000000005" }]

/-- C3 counterexample table: an `ip_prefix` equal to a missing-value
sentinel only up to case (`"NONE"`). -/
def tblC3 : Table :=
  [{ baseRow with ip_prefix := Cell.str "NONE" }]

/-- C5 counterexample table: a `risk_score` whose numeric conversion
fails. -/
def tblC5 : Table :=
  [{ baseRow with risk_score := Cell.str "abc" }]

/-- C9 counterexample table: two sale rows to the same receiving address,
one with timestamp 5 and one with a missing timestamp.  The table is a
fixed point of `enhanced_data_cleaning` (a cleaned table). -/
def tblC9 : Table :=
  [{ baseRow with transaction_type := Cell.str "sale",
                  amount := Cell.num 1, timestamp := Cell.num 5 },
   { baseRow with transaction_type := Cell.str "sale",
                  amount := Cell.num 2, timestamp := Cell.missing,
                  sending_address := Cell.str "0x0000000000000000000000000000000000000006" }]

/-- C9 witness table: a single sale row. -/
def tblC9w : Table :=
  [{ baseRow with transaction_type := Cell.str "sale" }]

/-! ## Theorems -/

/-! ### Basic lemmas about the embedded pandas operations -/

theorem mem_dedupFirstAux {α : Type} [DecidableEq α] {l seen : List α} {a : α} :
    a ∈ dedupFirstAux seen l ↔ a ∈ l ∧ a ∉ seen := by
  induction l generalizing seen with
  | nil => simp [dedupFirstAux]
  | cons x xs ih =>
      unfold dedupFirstAux
      by_cases hx : x ∈ seen
      · rw [if_pos hx, ih]
        simp only [List.mem_cons]
        constructor
        · rintro ⟨h1, h2⟩; exact ⟨Or.inr h1, h2⟩
        · rintro ⟨h1 | h1, h2⟩
          · exact absurd (h1 ▸ hx) h2
          · exact ⟨h1, h2⟩
      · rw [if_neg hx]
        simp only [List.mem_cons, ih, List.mem_cons]
        constructor
        · rintro (rfl | ⟨h1, h2⟩)
          · exact ⟨Or.inl rfl, hx⟩
          · exact ⟨Or.inr h1, fun hc => h2 (Or.inr hc)⟩
        · rintro ⟨h1 | h1, h2⟩
          · exact Or.inl h1
          · by_cases hax : a = x
            · exact Or.inl hax
            · exact Or.inr ⟨h1, fun hc => hc.elim (fun h => hax h) h2⟩

theorem mem_dedupFirst {α : Type} [DecidableEq α] {l : List α} {a : α} :
    a ∈ dedupFirst l ↔ a ∈ l := by
  unfold dedupFirst
  rw [mem_dedupFirstAux]
  simp

theorem nodup_dedupFirstAux {α : Type} [DecidableEq α] (l seen : List α) :
    (dedupFirstAux seen l).Nodup := by
  induction l generalizing seen with
  | nil => simp [dedupFirstAux]
  | cons x xs ih =>
      unfold dedupFirstAux
      by_cases hx : x ∈ seen
      · rw [if_pos hx]; exact ih seen
      · rw [if_neg hx]
        refine List.nodup_cons.mpr ⟨?_, ih (x :: seen)⟩
        intro hmem
        have := (mem_dedupFirstAux.mp hmem).2
        exact this (List.mem_cons_self x seen)

theorem dedupFirst_nodup {α : Type} [DecidableEq α] (l : List α) :
    (dedupFirst l).Nodup :=
  nodup_dedupFirstAux l []

theorem dedupFirstAux_eq_self {α : Type} [DecidableEq α] {l seen : List α}
    (hd : ∀ a ∈ l, a ∉ seen) (hn : l.Nodup) : dedupFirstAux seen l = l := by
  induction l generalizing seen with
  | nil => rfl
  | cons x xs ih =>
      unfold dedupFirstAux
      rw [if_neg (hd x (List.mem_cons_self x xs))]
      congr 1
      refine ih ?_ (List.nodup_cons.mp hn).2
      intro a ha
      intro hc
      rcases List.mem_cons.mp hc with rfl | hc'
      · exact (List.nodup_cons.mp hn).1 ha
      · exact hd a (List.mem_cons_of_mem x ha) hc'

theorem dedupFirst_eq_self_of_nodup {α : Type} [DecidableEq α] {l : List α}
    (h : l.Nodup) : dedupFirst l = l :=
  dedupFirstAux_eq_self (fun a _ => List.not_mem_nil a) h

theorem dedupFirst_idem {α : Type} [DecidableEq α] (l : List α) :
    dedupFirst (dedupFirst l) = dedupFirst l :=
  dedupFirst_eq_self_of_nodup (dedupFirst_nodup l)

/-! ### Record-update eta lemmas -/

theorem eta_ip (r : Row) : { r with ip_prefix := Row.ip_prefix r } = r := by
  cases r; rfl

theorem eta_ts (r : Row) : { r with timestamp := r.timestamp } = r := by
  cases r; rfl

theorem eta_region (r : Row) : { r with location_region := r.location_region } = r := by
  cases r; rfl

/-! ### Stage characterizations -/

/-- Stage 1 acts as a plain filter (when no row fails, the skipped filter
is the identity anyway). -/
theorem validateAddresses_eq (rows : Table) :
    validateAddresses rows = rows.filter addrMask := by
  unfold validateAddresses
  by_cases h : 0 < rows.countP (fun r => !addrMask r)
  · rw [if_pos h]
  · rw [if_neg h]
    have h0 : rows.countP (fun r => !addrMask r) = 0 := Nat.eq_zero_of_not_pos h
    have hall := List.countP_eq_zero.mp h0
    refine (List.filter_eq_self.mpr ?_).symm
    intro a ha
    have := hall a ha
    simpa using this

/-- Stage 2 acts as a cellwise map: every `ip_prefix` becomes its string
form, with matching values rewritten to `'INVALID_IP'`. -/
theorem treatIp_eq (rows : Table) :
    treatIp rows = rows.map (fun r => { r with ip_prefix := ipCellSpec (Row.ip_prefix r) }) := by
  unfold treatIp
  by_cases h : 0 < (rows.map (fun r => { r with ip_prefix := Cell.str (stringifyCell (Row.ip_prefix r)) })).countP (fun r => ipBadCell (Row.ip_prefix r))
  · rw [if_pos h, List.map_map]
    apply List.map_congr_left
    intro r _
    by_cases hb : stringifyCell (Row.ip_prefix r) ∈ ipBadList
    · simp [Function.comp, ipBadCell, hb, ipCellSpec]
    · simp [Function.comp, ipBadCell, hb, ipCellSpec]
  · rw [if_neg h]
    have h0 := List.countP_eq_zero.mp (Nat.eq_zero_of_not_pos h)
    apply List.map_congr_left
    intro r hr
    have hmem : ({ r with ip_prefix := Cell.str (stringifyCell (Row.ip_prefix r)) } : Row) ∈
        rows.map (fun r => { r with ip_prefix := Cell.str (stringifyCell (Row.ip_prefix r)) }) :=
      List.mem_map_of_mem _ hr
    have hb := h0 _ hmem
    simp only [ipBadCell] at hb
    simp only [ipCellSpec]
    have hnot : stringifyCell (Row.ip_prefix r) ∉ ipBadList := by
      intro hc
      exact hb (by simpa using hc)
    rw [if_neg hnot]

/-- Stage 6 acts as a lower-casing map followed by a filter. -/
theorem treatRegion_eq (rows : Table) :
    treatRegion rows =
      (rows.map (fun r =>
        { r with location_region := Cell.str (lowerStr (stringifyCell r.location_region)) })).filter
        (fun r => !regionBad r) := by
  unfold treatRegion
  by_cases h : 0 < (rows.map (fun r =>
      { r with location_region := Cell.str (lowerStr (stringifyCell r.location_region)) })).countP regionBad
  · rw [if_pos h]
  · rw [if_neg h]
    have h0 := List.countP_eq_zero.mp (Nat.eq_zero_of_not_pos h)
    refine (List.filter_eq_self.mpr ?_).symm
    intro a ha
    have := h0 a ha
    simpa using this

/-! ### The imputation core, characterized row by row -/

theorem cellVal_optToCell (o : Option ℚ) : cellVal (optToCell o) = o := by
  cases o <;> rfl

theorem regionsOf_ne_missing {rows : Table} {k : Cell}
    (h : k ∈ regionsOf rows) : k ≠ Cell.missing := by
  unfold regionsOf at h
  rw [mem_dedupFirst, List.mem_filterMap] at h
  obtain ⟨r, _, hr⟩ := h
  by_cases hm : r.location_region = Cell.missing
  · rw [if_pos hm] at hr; cases hr
  · rw [if_neg hm] at hr
    cases hr
    exact hm

theorem mem_regionsOf_self {rows : Table} {r : Row} (h : r ∈ rows)
    (hne : r.location_region ≠ Cell.missing) : r.location_region ∈ regionsOf rows := by
  unfold regionsOf
  rw [mem_dedupFirst, List.mem_filterMap]
  exact ⟨r, h, by rw [if_neg hne]⟩

/-- The fold of per-region mask-fills over the whole table is a single
map applying, to each row, the fold of the row-level fill steps. -/
theorem foldl_maskFill_eq_map (A : ColAcc) (meds : List (Cell × Option ℚ)) (rows : Table) :
    meds.foldl (fun acc km => maskFillRegion A km.1 km.2 acc) rows =
      rows.map (fun r => meds.foldl (fun r km =>
        if r.location_region = km.1 ∧ A.get r = Cell.missing then A.set (optToCell km.2) r
        else r) r) := by
  induction meds generalizing rows with
  | nil => simp
  | cons km rest ih =>
      rw [List.foldl_cons, ih]
      unfold maskFillRegion
      rw [List.map_map]
      rfl

/-- A row whose cell is not missing is untouched by the row-level fill
steps. -/
theorem rowFill_of_ne_missing (A : ColAcc) (μ : Cell → Option ℚ) (ks : List Cell) (r : Row)
    (h : A.get r ≠ Cell.missing) :
    ks.foldl (fun r k =>
      if r.location_region = k ∧ A.get r = Cell.missing then A.set (optToCell (μ k)) r
      else r) r = r := by
  induction ks with
  | nil => rfl
  | cons k rest ih =>
      have hc : ¬(r.location_region = k ∧ A.get r = Cell.missing) := fun hc => h hc.2
      rw [List.foldl_cons, if_neg hc]
      exact ih

/-- Closed form of the row-level fill fold over a key list `ks` with
medians `μ`: a missing cell whose region is among the keys receives its
region's median (or stays missing if the median is `none`). -/
theorem rowFill_keys (A : ColAcc) (μ : Cell → Option ℚ) (ks : List Cell) (r : Row) :
    ks.foldl (fun r k =>
      if r.location_region = k ∧ A.get r = Cell.missing then A.set (optToCell (μ k)) r
      else r) r =
    if r.location_region ∈ ks ∧ A.get r = Cell.missing then
      A.set (optToCell (μ r.location_region)) r
    else r := by
  induction ks generalizing r with
  | nil => simp
  | cons k rest ih =>
      rw [List.foldl_cons]
      by_cases h1 : r.location_region = k ∧ A.get r = Cell.missing
      · rw [if_pos h1]
        have hmem : r.location_region ∈ k :: rest := by
          rw [h1.1]; exact List.mem_cons_self k rest
        rcases hm : μ k with _ | m
        · have hr : A.set (optToCell none) r = r := by
            show A.set Cell.missing r = r
            conv_lhs => rw [← h1.2]
            exact A.set_get r
          rw [hr, ih]
          have hmr : μ r.location_region = none := by rw [h1.1, hm]
          rw [hmr, hr, ite_self, ite_self]
        · have hget : A.get (A.set (optToCell (some m)) r) ≠ Cell.missing := by
            rw [A.get_set]
            simp [optToCell]
          rw [rowFill_of_ne_missing A μ rest _ hget]
          rw [if_pos ⟨hmem, h1.2⟩]
          rw [h1.1, hm]
      · rw [if_neg h1, ih]
        by_cases hg : A.get r = Cell.missing
        · have hne : r.location_region ≠ k := fun hc => h1 ⟨hc, hg⟩
          by_cases h2 : r.location_region ∈ rest
          · rw [if_pos ⟨h2, hg⟩, if_pos ⟨List.mem_cons_of_mem k h2, hg⟩]
          · rw [if_neg (fun hc => h2 hc.1), if_neg (fun hc =>
              (List.mem_cons.mp hc.1).elim hne h2)]
        · rw [if_neg (fun hc => hg hc.2), if_neg (fun hc => hg hc.2)]

/-- The per-region pass, as a single row-wise map. -/
theorem pass1Col_eq_map (A : ColAcc) (rows : Table) :
    pass1Col A rows = rows.map (fun r =>
      if r.location_region ∈ regionsOf rows ∧ A.get r = Cell.missing then
        A.set (optToCell (regionMedian A rows r.location_region)) r
      else r) := by
  unfold pass1Col
  rw [foldl_maskFill_eq_map]
  apply List.map_congr_left
  intro r _
  rw [List.foldl_map]
  exact rowFill_keys A (regionMedian A rows) (regionsOf rows) r

/-- `imputeCore`, row by row: a missing cell receives its region's
median when the region is present and has one, and otherwise the global
median of the column after the per-region pass. -/
theorem imputeCore_eq_map (A : ColAcc) (rows : Table) :
    imputeCore A rows = rows.map (impRowOp A rows) := by
  have h0 : imputeCore A rows =
      if 0 < missingCount A (pass1Col A rows) then
        fillAllMissing A (median (colVals A (pass1Col A rows))) (pass1Col A rows)
      else pass1Col A rows := rfl
  rw [h0]
  by_cases hrem : 0 < missingCount A (pass1Col A rows)
  · rw [if_pos hrem,
      show median (colVals A (pass1Col A rows)) = globalAfterOp A rows from rfl]
    unfold fillAllMissing
    rw [pass1Col_eq_map, List.map_map]
    apply List.map_congr_left
    intro r hr
    simp only [Function.comp]
    by_cases hg : A.get r = Cell.missing
    · by_cases hreg : r.location_region = Cell.missing
      · have hnot : r.location_region ∉ regionsOf rows :=
          fun hc => regionsOf_ne_missing hc hreg
        have hi : (if r.location_region ∈ regionsOf rows ∧ A.get r = Cell.missing then
            A.set (optToCell (regionMedian A rows r.location_region)) r else r) = r :=
          if_neg (fun hc => hnot hc.1)
        rw [hi, if_pos hg]
        unfold impRowOp
        rw [if_pos hg, if_pos hreg]
      · have hmem := mem_regionsOf_self hr hreg
        rcases hmed : regionMedian A rows r.location_region with _ | m
        · have hi : (if r.location_region ∈ regionsOf rows ∧ A.get r = Cell.missing then
              A.set (optToCell none) r else r) = A.set (optToCell none) r :=
            if_pos ⟨hmem, hg⟩
          have hr' : A.set (optToCell none) r = r := by
            show A.set Cell.missing r = r
            conv_lhs => rw [← hg]
            exact A.set_get r
          rw [hi, hr', if_pos hg]
          unfold impRowOp
          rw [if_pos hg, if_neg hreg, hmed]
        · have hi : (if r.location_region ∈ regionsOf rows ∧ A.get r = Cell.missing then
              A.set (optToCell (some m)) r else r) = A.set (optToCell (some m)) r :=
            if_pos ⟨hmem, hg⟩
          have hgm : A.get (A.set (optToCell (some m)) r) ≠ Cell.missing := by
            rw [A.get_set]
            simp [optToCell]
          rw [hi, if_neg hgm]
          unfold impRowOp
          rw [if_pos hg, if_neg hreg, hmed]
          rfl
    · have hi : (if r.location_region ∈ regionsOf rows ∧ A.get r = Cell.missing then
          A.set (optToCell (regionMedian A rows r.location_region)) r else r) = r :=
        if_neg (fun hc => hg hc.2)
      rw [hi, if_neg hg]
      unfold impRowOp
      rw [if_neg hg]
  · rw [if_neg hrem]
    have h1 : missingCount A (pass1Col A rows) = 0 := Nat.eq_zero_of_not_pos hrem
    unfold missingCount at h1
    have hall := List.countP_eq_zero.mp h1
    rw [pass1Col_eq_map]
    apply List.map_congr_left
    intro r hr
    by_cases hg : A.get r = Cell.missing
    · have hmem1 : (if r.location_region ∈ regionsOf rows ∧ A.get r = Cell.missing then
          A.set (optToCell (regionMedian A rows r.location_region)) r else r) ∈
          pass1Col A rows := by
        rw [pass1Col_eq_map]
        exact List.mem_map_of_mem _ hr
      have hnm := hall _ hmem1
      simp only [decide_eq_true_eq] at hnm
      by_cases hreg : r.location_region = Cell.missing
      · have hnot : r.location_region ∉ regionsOf rows :=
          fun hc => regionsOf_ne_missing hc hreg
        rw [if_neg (fun hc => hnot hc.1)] at hnm
        exact absurd hg hnm
      · have hmem := mem_regionsOf_self hr hreg
        rw [if_pos ⟨hmem, hg⟩] at hnm ⊢
        rcases hmed : regionMedian A rows r.location_region with _ | m
        · rw [A.get_set, hmed] at hnm
          exact absurd rfl hnm
        · unfold impRowOp
          rw [if_pos hg, if_neg hreg, hmed]
          rfl
    · rw [if_neg (fun hc => hg hc.2)]
      unfold impRowOp
      rw [if_neg hg]

/-! ### Translating post-conversion statistics back to the raw table -/

theorem convertCol_eq_map (A : ColAcc) (rows : Table) :
    convertCol A rows = rows.map (fun r => A.set (optToCell (toNumeric (A.get r))) r) := rfl

theorem regionsOf_convertCol (A : ColAcc) (rows : Table) :
    regionsOf (convertCol A rows) = regionsOf rows := by
  unfold regionsOf
  congr 1
  rw [convertCol_eq_map, List.filterMap_map]
  apply List.filterMap_congr
  intro r _
  simp only [Function.comp]
  rw [A.region_set]

theorem regionMedian_convertCol (A : ColAcc) (rows : Table) (k : Cell) :
    regionMedian A (convertCol A rows) k = regionMedianSpec A rows k := by
  unfold regionMedian regionMedianSpec
  congr 1
  rw [convertCol_eq_map, List.filter_map, List.filterMap_map]
  have h1 : rows.filter ((fun r => decide (r.location_region = k)) ∘
      (fun r => A.set (optToCell (toNumeric (A.get r))) r)) =
      rows.filter (fun r => decide (r.location_region = k)) := by
    apply List.filter_congr
    intro r _
    simp only [Function.comp]
    rw [A.region_set]
  rw [h1]
  apply List.filterMap_congr
  intro r _
  simp only [Function.comp]
  rw [A.get_set, cellVal_optToCell]

theorem colVals_pass1_convert (A : ColAcc) (rows : Table) :
    colVals A (pass1Col A (convertCol A rows)) = rows.filterMap (pass1Spec A rows) := by
  unfold colVals
  rw [pass1Col_eq_map, List.filterMap_map, convertCol_eq_map, List.filterMap_map,
    ← convertCol_eq_map A rows]
  apply List.filterMap_congr
  intro r hr
  simp only [Function.comp]
  rw [A.region_set, A.get_set]
  rcases hconv : toNumeric (A.get r) with _ | q
  · by_cases hreg : r.location_region = Cell.missing
    · have hnot : r.location_region ∉ regionsOf (convertCol A rows) :=
        fun hc => regionsOf_ne_missing hc hreg
      rw [if_neg (fun hc => hnot hc.1), A.get_set, cellVal_optToCell]
      simp only [pass1Spec, hconv]
      rw [if_pos hreg]
    · have hx : A.set (optToCell none) r ∈ convertCol A rows := by
        rw [convertCol_eq_map]
        exact List.mem_map.mpr ⟨r, hr, by rw [hconv]⟩
      have hxr : (A.set (optToCell none) r).location_region = r.location_region :=
        A.region_set _ _
      have hmem : r.location_region ∈ regionsOf (convertCol A rows) := by
        have h2 := mem_regionsOf_self hx (by rw [hxr]; exact hreg)
        rw [hxr] at h2
        exact h2
      rw [if_pos (show r.location_region ∈ regionsOf (convertCol A rows) ∧
            optToCell none = Cell.missing from ⟨hmem, rfl⟩),
        A.get_set, cellVal_optToCell, regionMedian_convertCol]
      simp only [pass1Spec, hconv]
      rw [if_neg hreg]
  · have hne : optToCell (some q) ≠ Cell.missing := by simp [optToCell]
    rw [if_neg (fun hc => hne hc.2), A.get_set, cellVal_optToCell]
    simp only [pass1Spec, hconv, optToCell]

theorem globalAfterOp_convertCol (A : ColAcc) (rows : Table) :
    globalAfterOp A (convertCol A rows) = globalFallbackSpec A rows := by
  unfold globalAfterOp globalFallbackSpec
  rw [colVals_pass1_convert]

/-- The shared imputation block applied to a freshly converted column,
described by the spec-side per-cell formula. -/
theorem imputeConv_eq_map (A : ColAcc) (rows : Table) :
    imputeCore A (convertCol A rows) =
      rows.map (fun r => A.set (imputedCellSpec A rows r) r) := by
  rw [imputeCore_eq_map, convertCol_eq_map, List.map_map, ← convertCol_eq_map A rows]
  apply List.map_congr_left
  intro r hr
  simp only [Function.comp]
  unfold impRowOp
  rw [A.get_set, A.region_set]
  rcases hconv : toNumeric (A.get r) with _ | q
  · rw [if_pos (show optToCell none = Cell.missing from rfl)]
    by_cases hreg : r.location_region = Cell.missing
    · rw [if_pos hreg, A.set_set, globalAfterOp_convertCol]
      simp only [imputedCellSpec, hconv]
      rw [if_pos hreg]
    · rw [if_neg hreg, regionMedian_convertCol]
      rcases hmed : regionMedianSpec A rows r.location_region with _ | m
      · show A.set (optToCell (globalAfterOp A (convertCol A rows)))
            (A.set (optToCell none) r) = A.set (imputedCellSpec A rows r) r
        rw [A.set_set, globalAfterOp_convertCol]
        simp only [imputedCellSpec, hconv]
        rw [if_neg hreg, hmed]
      · show A.set (Cell.num m) (A.set (optToCell none) r) =
            A.set (imputedCellSpec A rows r) r
        rw [A.set_set]
        simp only [imputedCellSpec, hconv]
        rw [if_neg hreg, hmed]
  · have hne : optToCell (some q) ≠ Cell.missing := by simp [optToCell]
    rw [if_neg hne]
    simp only [imputedCellSpec, hconv]
    rfl

/-- Stage-3 pattern, row by row. -/
theorem riskStageG_eq_map (A : ColAcc) (rows : Table) :
    riskStageG A rows = rows.map (fun r => A.set (riskCellSpecG A rows r) r) := by
  have h0 : riskStageG A rows =
      if 0 < sentinelCount A rows then imputeCore A (convertCol A rows)
      else convertCol A rows := rfl
  rw [h0]
  by_cases hs : 0 < sentinelCount A rows
  · rw [if_pos hs, imputeConv_eq_map]
    apply List.map_congr_left
    intro r _
    unfold riskCellSpecG
    rw [if_pos hs]
  · rw [if_neg hs]
    show rows.map (fun r => A.set (optToCell (toNumeric (A.get r))) r) = _
    apply List.map_congr_left
    intro r _
    unfold riskCellSpecG
    rw [if_neg hs]

/-- Stage-4 pattern, row by row. -/
theorem amountStageG_eq_map (A : ColAcc) (rows : Table) :
    amountStageG A rows = rows.map (fun r => A.set (amountCellSpecG A rows r) r) := by
  have h0 : amountStageG A rows =
      if 0 < missingCount A (convertCol A rows) then imputeCore A (convertCol A rows)
      else convertCol A rows := rfl
  rw [h0]
  by_cases hs : 0 < missingCount A (convertCol A rows)
  · rw [if_pos hs, imputeConv_eq_map]
    apply List.map_congr_left
    intro r _
    unfold amountCellSpecG
    rw [if_pos hs]
  · rw [if_neg hs]
    show rows.map (fun r => A.set (optToCell (toNumeric (A.get r))) r) = _
    apply List.map_congr_left
    intro r _
    unfold amountCellSpecG
    rw [if_neg hs]

/-! ### Claims C1 and C2 — the two imputation stages -/

theorem sentinel_toNumeric_none {c : Cell} (h : c ∈ riskSentinels) :
    toNumeric c = none := by
  simp only [riskSentinels, List.mem_cons, List.not_mem_nil, or_false] at h
  rcases h with rfl | rfl | rfl | rfl | rfl <;> decide

/-- Every sentinel entry becomes missing after conversion, so the
sentinel count never exceeds the post-conversion missing count. -/
theorem sentinelCount_le_missingCount (A : ColAcc) (rows : Table) :
    sentinelCount A rows ≤ missingCount A (convertCol A rows) := by
  unfold sentinelCount missingCount convertCol
  rw [List.countP_map]
  apply List.countP_mono_left
  intro r _ hp
  simp only [Function.comp, decide_eq_true_eq] at hp ⊢
  rw [A.get_set, sentinel_toNumeric_none hp]
  rfl

/-- C1 counterexample: in `tblC1` the `risk_score` entry `"abc"` fails
numeric conversion, region `"europe"` has the non-missing value 10, yet
the stage leaves the entry missing instead of imputing it — the
imputation block only runs when a null-sentinel string is present
(`missing_count` of source line 168 counts sentinels, not conversion
failures). -/
theorem c1_counterexample :
    (treatRiskScore tblC1).map (fun r => r.risk_score) = [Cell.num 10, Cell.missing] ∧
    regionMedianSpec riskAcc tblC1 (Cell.str "europe") = some 10 ∧
    sentinelCount riskAcc tblC1 = 0 := by
  refine ⟨by decide, by decide, by decide⟩

/-- C1 amended: the `risk_score` stage converts every entry to a number
(conversion failures and sentinels become missing) and runs the two-pass
imputation — per-region median, then the global median over all
non-missing values after the per-region pass — only when at least one
entry is a null-sentinel string from `{'none','None','NULL','null',''}`;
when no sentinel is present, missing entries (in particular conversion
failures) are left unimputed. -/
theorem c1_risk_imputation_amended (rows : Table) :
    treatRiskScore rows =
      rows.map (fun r => { r with risk_score := riskCellSpec rows r }) :=
  riskStageG_eq_map riskAcc rows

/-- C2 counterexample: on `tblC2` (a conversion failure but no sentinel)
the stage-3 pattern and the stage-4 pattern disagree on the very same
column: the risk-score pattern skips imputation, the amount pattern
imputes. -/
theorem c2_counterexample :
    riskStageG riskAcc tblC2 ≠ amountStageG riskAcc tblC2 := by
  decide

/-- C2 amended: the two imputation stages share the identical two-pass
procedure but differ in their trigger — the risk stage runs it only when
a null-sentinel string is present, the amount stage whenever an entry is
missing after conversion.  They agree on every table where either a
sentinel is present or nothing is missing after conversion; they differ
exactly on columns with conversion failures (or true `NaN`s) but no
sentinel. -/
theorem c2_stage_equivalence_amended (A : ColAcc) (rows : Table)
    (h : 0 < sentinelCount A rows ∨ missingCount A (convertCol A rows) = 0) :
    riskStageG A rows = amountStageG A rows := by
  have h0r : riskStageG A rows =
      if 0 < sentinelCount A rows then imputeCore A (convertCol A rows)
      else convertCol A rows := rfl
  have h0a : amountStageG A rows =
      if 0 < missingCount A (convertCol A rows) then imputeCore A (convertCol A rows)
      else convertCol A rows := rfl
  rw [h0r, h0a]
  rcases h with hs | hm
  · rw [if_pos hs, if_pos (lt_of_lt_of_le hs (sentinelCount_le_missingCount A rows))]
  · have hs0 : ¬ 0 < sentinelCount A rows := by
      intro hc
      exact absurd (hm ▸ lt_of_lt_of_le hc (sentinelCount_le_missingCount A rows))
        (lt_irrefl 0)
    rw [if_neg hs0, if_neg (by rw [hm]; exact lt_irrefl 0)]

/-- C2 witness: on `tblC2w`, which contains the sentinel `"none"`, the
two stage patterns coincide. -/
theorem c2_witness : riskStageG riskAcc tblC2w = amountStageG riskAcc tblC2w :=
  c2_stage_equivalence_amended riskAcc tblC2w (Or.inl (by decide))

/-! ### Claim C10 — clean never mutates its argument -/

/-- C10: `enhanced_data_cleaning` never modifies the table passed to it.
The source copies its argument into the separate binding `df_clean`
(line 137) and every later statement reads and writes only `df_clean`;
threading both bindings explicitly, the caller's `df` after the body is
exactly the `df` before it, and the working copy is the returned cleaned
table. -/
theorem c10_clean_no_mutation (s : CleanLocals) :
    (enhancedCleaningProg s).df = s.df ∧
    (enhancedCleaningProg s).df_clean = enhanced_data_cleaning s.df := by
  simp [enhancedCleaningProg, enhanced_data_cleaning]

/-! ### Claim C8 — fatal path returns all-null, writes nothing -/

/-- C8: on any load failure (`FileNotFoundError` for a nonexistent source
or any unexpected exception), `run_enhanced_data_pipeline` returns a null
cleaned table and null report tables, and `save_df_clean` applied to that
null cleaned table writes no output artifact. -/
theorem c8_fatal_path (e : PipelineError) :
    run_enhanced_data_pipeline (Except.error e) = (none, none, none) ∧
    save_df_clean (run_enhanced_data_pipeline (Except.error e)).1 = none :=
  ⟨rfl, rfl⟩

/-! ### Claim C4 — address validation -/

/-- C4: the address-validation stage keeps a row exactly when both
`sending_address` and `receiving_address` are 42-character strings
beginning with `0x`; it is a pure filter (rows are dropped, never
rewritten). -/
theorem c4_address_validation (rows : Table) :
    validateAddresses rows = rows.filter addrMask ∧
    ∀ r : Row, addrMask r = true ↔ (AddrClaim r.sending_address ∧ AddrClaim r.receiving_address) := by
  refine ⟨validateAddresses_eq rows, ?_⟩
  intro r
  unfold addrMask AddrClaim cellLen42 cellStarts0x
  cases r.sending_address <;> cases r.receiving_address <;>
    simp [Bool.and_eq_true] <;> tauto

/-! ### Claim C3 — IP normalization -/

/-- C3 counterexample: the ip value `"NONE"` equals the sentinel `"none"`
case-insensitively, yet the stage leaves it unchanged (the `isin` test of
line 157 is case-sensitive), contradicting the claim that it is rewritten
to `'INVALID_IP'`. -/
theorem c3_counterexample :
    (treatIp tblC3).map (fun r => Row.ip_prefix r) = [Cell.str "NONE"] ∧
    lowerStr "NONE" = lowerStr "none" ∧
    (Cell.str "NONE" : Cell) ≠ Cell.str "INVALID_IP" := by
  refine ⟨by decide, by decide, by decide⟩

/-- C3 amended: the match against `{'0.0', '0', 'nan', 'NaN', 'None',
'none'}` is case-sensitive, and the stage first string-converts every
`ip_prefix` cell (so non-string cells are rewritten to their string
form); matching values become `'INVALID_IP'`, all other values keep
their string form, and no row is dropped. -/
theorem c3_ip_normalization_amended (rows : Table) :
    treatIp rows = rows.map (fun r => { r with ip_prefix := ipCellSpec (Row.ip_prefix r) }) ∧
    (treatIp rows).length = rows.length := by
  refine ⟨treatIp_eq rows, ?_⟩
  rw [treatIp_eq rows, List.length_map]

/-! ### Claim C6 — risk/anomaly consistency check -/

/-- C6: the mismatch check flags exactly the rows with
(`risk_score > 75` and `anomaly = 'low_risk'`) or (`risk_score < 25` and
`anomaly = 'high_risk'`) — Python's `&` binds tighter than `|`, so the
source expression has exactly this grouping — and each of the four
checks, this one included, contributes to the `passed` tally exactly
when it flags nothing. -/
theorem c6_mismatch_check (df : Table) :
    (post_processing_checks df).mismatch = df.filter mismatchMask ∧
    (∀ r : Row, mismatchMask r = true ↔
      (((∃ q, r.risk_score = Cell.num q ∧ 75 < q) ∧ r.anomaly = Cell.str "low_risk") ∨
       ((∃ q, r.risk_score = Cell.num q ∧ q < 25) ∧ r.anomaly = Cell.str "high_risk"))) ∧
    (post_processing_checks df).checksPassed =
      (if (post_processing_checks df).mismatch = [] then 1 else 0) +
      (if (post_processing_checks df).suspicious = [] then 1 else 0) +
      (if (post_processing_checks df).negativeAmounts = 0 then 1 else 0) +
      (if (post_processing_checks df).longSessions = 0 then 1 else 0) := by
  refine ⟨rfl, ?_, ?_⟩
  · intro r
    unfold mismatchMask cellGtB cellLtB cellEqStrB
    cases hr : r.risk_score <;>
      simp [Bool.and_eq_true, Bool.or_eq_true, Cell.num.injEq] <;> tauto
  · show (post_processing_checks df).checksPassed = _
    unfold post_processing_checks
    simp [List.length_eq_zero]

/-! ### Claim C5 — out-of-range reporting in `validate_data_quality` -/

/-- C5 counterexample: the `risk_score` value `"abc"` fails numeric
conversion, yet the quality report contains no conversion-error entry and
no out-of-range count at all — the value is silently ignored, because
`pd.to_numeric(errors='coerce')` never raises and the `except` branch of
line 122 is unreachable. -/
theorem c5_counterexample :
    rangeIssues tblC5 = [] ∧ toNumeric (Cell.str "abc") = none := by
  refine ⟨by decide, by decide⟩

/-- C5 amended: the out-of-range count of each numeric column counts
exactly the values whose numeric conversion succeeds and falls outside
the documented bounds; values that fail conversion are counted neither as
in-range nor as out-of-range, and no conversion-error entry is ever
produced (the `except` branch is dead code). -/
theorem c5_range_validation_amended (df : Table) :
    rangeIssues df = numericChecks.filterMap (fun t =>
      let n := df.countP (fun r => decide (OutOfRangeClaim (numericField t.1 r) t.2.1 t.2.2))
      if 0 < n then some (t.1, RangeEntry.count n) else none) ∧
    (rangeIssues df).all (fun e =>
      match e.2 with
      | RangeEntry.count _ => true
      | RangeEntry.convErr => false) = true := by
  have hcount : ∀ (get : Row → Cell) (lo hi : ℚ),
      outOfRangeCount get lo hi df =
        df.countP (fun r => decide (OutOfRangeClaim (get r) lo hi)) := by
    intro get lo hi
    unfold outOfRangeCount
    apply List.countP_congr
    intro r _
    cases h : toNumeric (get r) with
    | none => simp [optToCell, cellLtB, cellGtB, OutOfRangeClaim, h]
    | some q =>
        by_cases h1 : q < lo <;> by_cases h2 : hi < q <;>
          simp [optToCell, cellLtB, cellGtB, OutOfRangeClaim, h, h1, h2]
  constructor
  · unfold rangeIssues
    apply List.filterMap_congr
    intro t _
    rw [hcount (numericField t.1) t.2.1 t.2.2]
  · rw [List.all_eq_true]
    intro e he
    unfold rangeIssues at he
    rw [List.mem_filterMap] at he
    obtain ⟨t, _, ht⟩ := he
    by_cases hn : 0 < outOfRangeCount (numericField t.1) t.2.1 t.2.2 df
    · rw [if_pos hn] at ht
      cases ht
      rfl
    · rw [if_neg hn] at ht
      cases ht

/-! ### Claim C9 — the top-sale-addresses report -/

theorem mem_dedupLastBy {α β : Type} [DecidableEq β] {key : α → β} {l : List α} {a : α}
    (h : a ∈ dedupLastBy key l) : a ∈ l := by
  induction l with
  | nil => simpa [dedupLastBy] using h
  | cons x xs ih =>
      unfold dedupLastBy at h
      by_cases hx : xs.any (fun y => decide (key y = key x)) = true
      · rw [if_pos hx] at h
        exact List.mem_cons_of_mem _ (ih h)
      · rw [if_neg hx] at h
        rcases List.mem_cons.mp h with rfl | h2
        · exact List.mem_cons_self _ _
        · exact List.mem_cons_of_mem _ (ih h2)

theorem dedupLastBy_length {α β : Type} [DecidableEq β] (key : α → β) (l : List α) :
    (dedupLastBy key l).length = (l.map key).toFinset.card := by
  induction l with
  | nil => simp [dedupLastBy]
  | cons x xs ih =>
      unfold dedupLastBy
      by_cases hx : xs.any (fun y => decide (key y = key x)) = true
      · rw [if_pos hx, ih, List.map_cons, List.toFinset_cons]
        have hmem : key x ∈ (xs.map key).toFinset := by
          simp only [List.any_eq_true, decide_eq_true_eq] at hx
          obtain ⟨y, hy, hk⟩ := hx
          simp only [List.mem_toFinset, List.mem_map]
          exact ⟨y, hy, hk⟩
        rw [Finset.insert_eq_self.mpr hmem]
      · rw [if_neg hx, List.length_cons, ih, List.map_cons, List.toFinset_cons]
        have hnot : key x ∉ (xs.map key).toFinset := by
          simp only [List.any_eq_true, decide_eq_true_eq] at hx
          simp only [List.mem_toFinset, List.mem_map]
          rintro ⟨y, hy, hk⟩
          exact hx ⟨y, hy, hk⟩
        rw [Finset.card_insert_of_not_mem hnot]

theorem dedupLastBy_keys_nodup {α β : Type} [DecidableEq β] (key : α → β) (l : List α) :
    ((dedupLastBy key l).map key).Nodup := by
  induction l with
  | nil => simp [dedupLastBy]
  | cons x xs ih =>
      unfold dedupLastBy
      by_cases hx : xs.any (fun y => decide (key y = key x)) = true
      · rw [if_pos hx]
        exact ih
      · rw [if_neg hx, List.map_cons]
        refine List.nodup_cons.mpr ⟨?_, ih⟩
        simp only [List.any_eq_true, decide_eq_true_eq] at hx
        simp only [List.mem_map]
        rintro ⟨y, hy, hk⟩
        exact hx ⟨y, mem_dedupLastBy hy, hk⟩

/-- In a timestamp-sorted list, the per-key survivor of
`drop_duplicates(keep='last')` has a maximal timestamp key among the rows
sharing its key. -/
theorem dedupLastBy_maximal {key : Row → Cell} {l : Table}
    (hs : List.Sorted tsRel l) {r : Row} (hr : r ∈ dedupLastBy key l) :
    ∀ r' ∈ l, key r' = key r → tsKey r'.timestamp ≤ tsKey r.timestamp := by
  induction l with
  | nil => simp [dedupLastBy] at hr
  | cons x xs ih =>
      have hs' : List.Sorted tsRel xs := hs.of_cons
      unfold dedupLastBy at hr
      by_cases hx : xs.any (fun y => decide (key y = key x)) = true
      · rw [if_pos hx] at hr
        intro r' hr' hk
        rcases List.mem_cons.mp hr' with rfl | h2
        · exact List.rel_of_sorted_cons hs r (mem_dedupLastBy hr)
        · exact ih hs' hr r' h2 hk
      · rw [if_neg hx] at hr
        simp only [List.any_eq_true, decide_eq_true_eq, not_exists] at hx
        rcases List.mem_cons.mp hr with rfl | h2
        · intro r' hr' hk
          rcases List.mem_cons.mp hr' with rfl | h2'
          · exact le_refl _
          · exact absurd (⟨h2', hk⟩ : r' ∈ xs ∧ key r' = key r) (hx r')
        · intro r' hr' hk
          rcases List.mem_cons.mp hr' with rfl | h2'
          · exact absurd (⟨mem_dedupLastBy h2, hk.symm⟩ : r ∈ xs ∧ key r = key r') (hx r)
          · exact ih hs' h2 r' h2' hk

theorem mem_salesOf_of_mem_latest {df : Table} {r : Row} (h : r ∈ latestSales df) :
    r ∈ salesOf df := by
  unfold latestSales at h
  exact (List.mem_insertionSort tsRel).mp (mem_dedupLastBy h)

theorem latest_maximal {df : Table} {r : Row} (h : r ∈ latestSales df) :
    ∀ r' ∈ salesOf df, r'.receiving_address = r.receiving_address →
      tsKey r'.timestamp ≤ tsKey r.timestamp := by
  unfold latestSales at h
  intro r' hr' hk
  exact dedupLastBy_maximal (List.sorted_insertionSort tsRel (salesOf df)) h r'
    ((List.mem_insertionSort tsRel).mpr hr') hk

theorem latestSales_length (df : Table) :
    (latestSales df).length =
      ((salesOf df).map (fun r => r.receiving_address)).toFinset.card := by
  unfold latestSales
  rw [dedupLastBy_length]
  congr 1
  exact List.toFinset_eq_of_perm _ _
    ((List.perm_insertionSort tsRel (salesOf df)).map (fun r => r.receiving_address))

theorem latestSales_keys_nodup (df : Table) :
    ((latestSales df).map (fun r => r.receiving_address)).Nodup :=
  dedupLastBy_keys_nodup _ _

/-- C9 counterexample: `tblC9` is a cleaned table (a fixed point of
`enhanced_data_cleaning`) with two sale rows to the same receiving
address, one at timestamp 5 and one with a missing timestamp.  The
participant selected for that address is the missing-timestamp row —
`sort_values` places `NaT` last and `keep='last'` then keeps it — so the
row with the largest (actual) timestamp does not participate, contrary
to the claim. -/
theorem c9_counterexample :
    enhanced_data_cleaning tblC9 = tblC9 ∧
    tabela2 tblC9 =
      [{ receiving_address := Cell.str "0x0000000000000000000000000000000000000002",
         amount := Cell.num 2, timestamp := Cell.missing }] := by
  refine ⟨by decide, by decide⟩

/-- C9 amended: the report filters to `transaction_type = 'sale'` (an
empty sale set yields an empty report); for each distinct
`receiving_address` exactly one sale row participates, and that row is
maximal in timestamp order **with missing timestamps placed after all
valid ones** (`na_position='last'`); the report has one row per distinct
address, min 3; and every unselected deduplicated row has an amount no
larger than every selected one (ties broken by the stable sort order). -/
theorem c9_top_sales_amended (df : Table) :
    (tabela2 df).length =
      min 3 ((salesOf df).map (fun r => r.receiving_address)).toFinset.card ∧
    ((tabela2 df).map (fun s => s.receiving_address)).Nodup ∧
    (∀ s ∈ tabela2 df, ∃ r ∈ salesOf df, s = saleProj r ∧
      ∀ r' ∈ salesOf df, r'.receiving_address = r.receiving_address →
        tsKey r'.timestamp ≤ tsKey r.timestamp) ∧
    (∃ sel : Table, tabela2 df = sel.map saleProj ∧
      (∀ r ∈ sel, r ∈ latestSales df) ∧
      ∀ r' ∈ latestSales df, r' ∉ sel → ∀ r ∈ sel,
        amtKeyCell r'.amount ≤ amtKeyCell r.amount) := by
  have h0 : tabela2 df =
      if (salesOf df).isEmpty then []
      else if 3 ≤ (latestSales df).length then
        ((List.insertionSort amtRel (latestSales df)).take 3).map saleProj
      else (latestSales df).map saleProj := rfl
  by_cases hsE : (salesOf df).isEmpty = true
  · have hnil : salesOf df = [] := by
      rwa [List.isEmpty_iff] at hsE
    have ht : tabela2 df = [] := by rw [h0, if_pos hsE]
    refine ⟨?_, ?_, ?_, ⟨[], ?_, ?_, ?_⟩⟩
    · rw [ht, hnil]
      decide
    · rw [ht]
      exact List.nodup_nil
    · rw [ht]
      intro s hs
      exact absurd hs (List.not_mem_nil s)
    · rw [ht]
      rfl
    · intro r hr
      exact absurd hr (List.not_mem_nil r)
    · intro r' _ _ r hr
      exact absurd hr (List.not_mem_nil r)
  · have hcard : ((salesOf df).map (fun r => r.receiving_address)).toFinset.card =
        (latestSales df).length := (latestSales_length df).symm
    by_cases h3 : 3 ≤ (latestSales df).length
    · have ht : tabela2 df =
          ((List.insertionSort amtRel (latestSales df)).take 3).map saleProj := by
        rw [h0, if_neg hsE, if_pos h3]
      have hpermk : ((List.insertionSort amtRel (latestSales df)).map
            (fun r => r.receiving_address)).Nodup := by
        refine (List.Perm.nodup_iff ?_).mpr (latestSales_keys_nodup df)
        exact (List.perm_insertionSort amtRel (latestSales df)).map _
      refine ⟨?_, ?_, ?_, ?_⟩
      · rw [ht, hcard, List.length_map, List.length_take, List.length_insertionSort]
      · rw [ht, List.map_map]
        refine List.Nodup.sublist ?_ hpermk
        exact (List.take_sublist 3 _).map _
      · rw [ht]
        intro s hs
        obtain ⟨r, hrtake, rfl⟩ := List.mem_map.mp hs
        have hrlat : r ∈ latestSales df :=
          (List.mem_insertionSort amtRel).mp ((List.take_sublist 3 _).subset hrtake)
        exact ⟨r, mem_salesOf_of_mem_latest hrlat, rfl, latest_maximal hrlat⟩
      · refine ⟨(List.insertionSort amtRel (latestSales df)).take 3, ht, ?_, ?_⟩
        · intro r hr
          exact (List.mem_insertionSort amtRel).mp ((List.take_sublist 3 _).subset hr)
        · intro r' hlat hnotsel r hrsel
          have hr'sort : r' ∈ List.insertionSort amtRel (latestSales df) :=
            (List.mem_insertionSort amtRel).mpr hlat
          have hsplit := List.take_append_drop 3 (List.insertionSort amtRel (latestSales df))
          have hr'' : r' ∈ (List.insertionSort amtRel (latestSales df)).take 3 ++
              (List.insertionSort amtRel (latestSales df)).drop 3 := by
            rw [hsplit]
            exact hr'sort
          rcases List.mem_append.mp hr'' with h | h
          · exact absurd h hnotsel
          · have hpw : List.Pairwise amtRel
                ((List.insertionSort amtRel (latestSales df)).take 3 ++
                 (List.insertionSort amtRel (latestSales df)).drop 3) := by
              rw [hsplit]
              exact List.sorted_insertionSort amtRel (latestSales df)
            exact (List.pairwise_append.mp hpw).2.2 r hrsel r' h
    · have ht : tabela2 df = (latestSales df).map saleProj := by
        rw [h0, if_neg hsE, if_neg h3]
      refine ⟨?_, ?_, ?_, ⟨latestSales df, ht, fun r hr => hr, ?_⟩⟩
      · rw [ht, hcard, List.length_map]
        exact (Nat.min_eq_right (Nat.le_of_lt (Nat.lt_of_not_le h3))).symm
      · rw [ht, List.map_map]
        exact latestSales_keys_nodup df
      · rw [ht]
        intro s hs
        obtain ⟨r, hrlat, rfl⟩ := List.mem_map.mp hs
        exact ⟨r, mem_salesOf_of_mem_latest hrlat, rfl, latest_maximal hrlat⟩
      · intro r' hlat hnotsel r hr
        exact absurd hlat hnotsel

/-- C9 witness: the amended report properties evaluated on the
single-sale table `tblC9w`. -/
theorem c9_witness :
    (tabela2 tblC9w).length =
      min 3 ((salesOf tblC9w).map (fun r => r.receiving_address)).toFinset.card ∧
    ((tabela2 tblC9w).map (fun s => s.receiving_address)).Nodup := by
  have h := c9_top_sales_amended tblC9w
  exact ⟨h.1, h.2.1⟩

/-! ### Claim C7 — idempotence of the cleaning pipeline -/

theorem map_id_of_eq {α : Type} {f : α → α} {l : List α} (h : ∀ a ∈ l, f a = a) :
    l.map f = l :=
  (List.map_congr_left h).trans (List.map_id l)

theorem conv_cell_id {c : Cell} (h : cellNumOrMissing c) :
    optToCell (toNumeric c) = c := by
  rcases h with rfl | ⟨q, rfl⟩ <;> rfl

theorem numOrMissing_not_sentinel {c : Cell} (h : cellNumOrMissing c) :
    c ∉ riskSentinels := by
  rcases h with rfl | ⟨q, rfl⟩ <;> simp [riskSentinels]

theorem optToCell_numOrMissing (o : Option ℚ) : cellNumOrMissing (optToCell o) := by
  rcases o with _ | q
  · exact Or.inl rfl
  · exact Or.inr ⟨q, rfl⟩

theorem imputedCellSpec_numOrMissing (A : ColAcc) (rows : Table) (r : Row) :
    cellNumOrMissing (imputedCellSpec A rows r) := by
  unfold imputedCellSpec
  rcases hconv : toNumeric (A.get r) with _ | q
  · show cellNumOrMissing (if r.location_region = Cell.missing
        then optToCell (globalFallbackSpec A rows)
        else match regionMedianSpec A rows r.location_region with
             | some m => Cell.num m
             | none => optToCell (globalFallbackSpec A rows))
    by_cases hreg : r.location_region = Cell.missing
    · rw [if_pos hreg]
      exact optToCell_numOrMissing _
    · rw [if_neg hreg]
      rcases regionMedianSpec A rows r.location_region with _ | m
      · exact optToCell_numOrMissing _
      · exact Or.inr ⟨m, rfl⟩
  · exact Or.inr ⟨q, rfl⟩

theorem riskCellSpecG_numOrMissing (A : ColAcc) (rows : Table) (r : Row) :
    cellNumOrMissing (riskCellSpecG A rows r) := by
  unfold riskCellSpecG
  by_cases hs : 0 < sentinelCount A rows
  · rw [if_pos hs]
    exact imputedCellSpec_numOrMissing A rows r
  · rw [if_neg hs]
    exact optToCell_numOrMissing _

theorem amountCellSpecG_numOrMissing (A : ColAcc) (rows : Table) (r : Row) :
    cellNumOrMissing (amountCellSpecG A rows r) := by
  unfold amountCellSpecG
  by_cases hs : 0 < missingCount A (convertCol A rows)
  · rw [if_pos hs]
    exact imputedCellSpec_numOrMissing A rows r
  · rw [if_neg hs]
    exact optToCell_numOrMissing _

theorem median_eq_none {xs : List ℚ} : median xs = none ↔ xs = [] := by
  cases xs with
  | nil => simp [median]
  | cons x t =>
      constructor
      · intro h
        exfalso
        simp only [median] at h
        split at h <;> exact Option.noConfusion h
      · intro h
        exact absurd h (List.cons_ne_nil x t)

theorem lowerChar_idem (c : Char) : lowerChar (lowerChar c) = lowerChar c := by
  unfold lowerChar
  by_cases h : 65 ≤ c.toNat ∧ c.toNat ≤ 90
  · rw [if_pos h]
    have hv : (c.toNat + 32).isValidChar := Or.inl (by omega)
    have ht : (Char.ofNat (c.toNat + 32)).toNat = c.toNat + 32 := by
      unfold Char.ofNat
      rw [dif_pos hv]
      rfl
    rw [if_neg (by rw [ht]; omega)]
  · rw [if_neg h, if_neg h]

theorem lowerStr_idem (s : String) : lowerStr (lowerStr s) = lowerStr s := by
  unfold lowerStr
  rw [List.map_map]
  congr 1
  apply List.map_congr_left
  intro c _
  exact lowerChar_idem c

theorem ipCellSpec_ok (c : Cell) :
    ∃ s, ipCellSpec c = Cell.str s ∧ s ∉ ipBadList := by
  simp only [ipCellSpec]
  by_cases h : stringifyCell c ∈ ipBadList
  · rw [if_pos h]
    exact ⟨"INVALID_IP", rfl, by decide⟩
  · rw [if_neg h]
    exact ⟨stringifyCell c, rfl, h⟩

theorem mem_validateAddresses {rows : Table} {r : Row} (h : r ∈ validateAddresses rows) :
    r ∈ rows ∧ addrMask r = true := by
  rw [validateAddresses_eq] at h
  exact ⟨List.mem_of_mem_filter h, List.of_mem_filter h⟩

/-! Stage identities on already-clean tables. -/

theorem validateAddresses_id {rows : Table} (h : ∀ r ∈ rows, addrMask r = true) :
    validateAddresses rows = rows := by
  rw [validateAddresses_eq]
  exact List.filter_eq_self.mpr h

theorem treatIp_id {rows : Table}
    (h : ∀ r ∈ rows, ∃ s, Row.ip_prefix r = Cell.str s ∧ s ∉ ipBadList) :
    treatIp rows = rows := by
  rw [treatIp_eq]
  apply map_id_of_eq
  intro r hr
  obtain ⟨s, hs, hbad⟩ := h r hr
  rw [hs]
  show ({ r with ip_prefix := Cell.str (if s ∈ ipBadList then "INVALID_IP" else s) } : Row) = r
  rw [if_neg hbad, ← hs]

theorem treatRiskScore_id {rows : Table}
    (h : ∀ r ∈ rows, cellNumOrMissing r.risk_score) :
    treatRiskScore rows = rows := by
  unfold treatRiskScore
  rw [riskStageG_eq_map]
  apply map_id_of_eq
  intro r hr
  have hs0 : sentinelCount riskAcc rows = 0 := by
    unfold sentinelCount
    rw [List.countP_eq_zero]
    intro a ha
    simp only [decide_eq_true_eq]
    exact numOrMissing_not_sentinel (h a ha)
  show riskAcc.set (riskCellSpecG riskAcc rows r) r = r
  unfold riskCellSpecG
  rw [if_neg (by rw [hs0]; exact lt_irrefl 0)]
  rw [show toNumeric (riskAcc.get r) = toNumeric r.risk_score from rfl,
    conv_cell_id (h r hr)]
  exact riskAcc.set_get r

theorem treatTimestamp_id {rows : Table}
    (h : ∀ r ∈ rows, cellNumOrMissing r.timestamp) :
    treatTimestamp rows = rows := by
  unfold treatTimestamp
  apply map_id_of_eq
  intro r hr
  rw [conv_cell_id (h r hr)]

theorem treatRegion_id {rows : Table}
    (h : ∀ r ∈ rows, ∃ s, r.location_region = Cell.str s ∧ lowerStr s = s ∧
      s ∉ regionBadList) :
    treatRegion rows = rows := by
  rw [treatRegion_eq]
  have hm : rows.map (fun r =>
      { r with location_region := Cell.str (lowerStr (stringifyCell r.location_region)) })
      = rows := by
    apply map_id_of_eq
    intro r hr
    obtain ⟨s, hs, hl, _⟩ := h r hr
    rw [hs]
    show ({ r with location_region := Cell.str (lowerStr s) } : Row) = r
    rw [hl, ← hs]
  rw [hm]
  refine List.filter_eq_self.mpr ?_
  intro r hr
  obtain ⟨s, hs, _, hbad⟩ := h r hr
  simp [regionBad, hs, hbad]

theorem missingCount_convert_eq_zero {A : ColAcc} {rows : Table}
    (h : ∀ r ∈ rows, ∃ q, A.get r = Cell.num q) :
    missingCount A (convertCol A rows) = 0 := by
  unfold missingCount convertCol
  rw [List.countP_map, List.countP_eq_zero]
  intro a ha
  simp only [Function.comp, decide_eq_true_eq]
  rw [A.get_set]
  obtain ⟨q, hq⟩ := h a ha
  rw [hq]
  simp [toNumeric, optToCell]

theorem regionMedianSpec_none_of_all_missing {A : ColAcc} {rows : Table}
    (h : ∀ r ∈ rows, A.get r = Cell.missing) (k : Cell) :
    regionMedianSpec A rows k = none := by
  unfold regionMedianSpec
  have hnil : (rows.filter (fun r => decide (r.location_region = k))).filterMap
      (fun r => toNumeric (A.get r)) = [] := by
    rw [List.filterMap_eq_nil_iff]
    intro a ha
    rw [h a (List.mem_of_mem_filter ha)]
    rfl
  rw [hnil]
  rfl

theorem globalFallbackSpec_none_of_all_missing {A : ColAcc} {rows : Table}
    (h : ∀ r ∈ rows, A.get r = Cell.missing) :
    globalFallbackSpec A rows = none := by
  unfold globalFallbackSpec
  have hnil : rows.filterMap (pass1Spec A rows) = [] := by
    rw [List.filterMap_eq_nil_iff]
    intro a ha
    have hca : toNumeric (A.get a) = none := by
      rw [h a ha]
      rfl
    simp only [pass1Spec, hca]
    rw [regionMedianSpec_none_of_all_missing h, ite_self]
  rw [hnil]
  rfl

/-- The amount stage is the identity on a column that is already fully
numeric or fully missing. -/
theorem treatAmount_id {rows : Table}
    (hAll : (∀ r ∈ rows, ∃ q, r.amount = Cell.num q) ∨
      (∀ r ∈ rows, r.amount = Cell.missing)) :
    treatAmount rows = rows := by
  unfold treatAmount
  rw [amountStageG_eq_map]
  apply map_id_of_eq
  intro r hr
  show amountAcc.set (amountCellSpecG amountAcc rows r) r = r
  rcases hAll with hnum | hmiss
  · have h0 : missingCount amountAcc (convertCol amountAcc rows) = 0 :=
      missingCount_convert_eq_zero hnum
    unfold amountCellSpecG
    rw [if_neg (by rw [h0]; exact lt_irrefl 0)]
    obtain ⟨q, hq⟩ := hnum r hr
    rw [show toNumeric (amountAcc.get r) = toNumeric r.amount from rfl, hq]
    show amountAcc.set (Cell.num q) r = r
    rw [show Cell.num q = amountAcc.get r from by rw [show amountAcc.get r = r.amount from rfl, hq]]
    exact amountAcc.set_get r
  · have hget : ∀ a ∈ rows, amountAcc.get a = Cell.missing := fun a ha => hmiss a ha
    have hconv : toNumeric (amountAcc.get r) = none := by
      rw [hget r hr]
      rfl
    have hspec : amountCellSpecG amountAcc rows r = Cell.missing := by
      unfold amountCellSpecG
      by_cases hm : 0 < missingCount amountAcc (convertCol amountAcc rows)
      · rw [if_pos hm]
        simp only [imputedCellSpec, hconv]
        by_cases hreg : r.location_region = Cell.missing
        · rw [if_pos hreg, globalFallbackSpec_none_of_all_missing hget]
          rfl
        · rw [if_neg hreg, regionMedianSpec_none_of_all_missing hget,
            globalFallbackSpec_none_of_all_missing hget]
          rfl
      · rw [if_neg hm, hconv]
        rfl
    rw [hspec, show Cell.missing = amountAcc.get r from by rw [hget r hr]]
    exact amountAcc.set_get r

/-- After the amount stage, the amount column is entirely numeric or
entirely missing. -/
theorem treatAmount_allOrNone (rows : Table) :
    (∀ r ∈ treatAmount rows, ∃ q, r.amount = Cell.num q) ∨
    (∀ r ∈ treatAmount rows, r.amount = Cell.missing) := by
  unfold treatAmount
  rw [amountStageG_eq_map]
  by_cases hm : 0 < missingCount amountAcc (convertCol amountAcc rows)
  · rcases hg : globalFallbackSpec amountAcc rows with _ | g
    · right
      intro r' hr'
      obtain ⟨r, hr, rfl⟩ := List.mem_map.mp hr'
      show amountCellSpecG amountAcc rows r = Cell.missing
      unfold amountCellSpecG
      rw [if_pos hm]
      have hnil : rows.filterMap (pass1Spec amountAcc rows) = [] := by
        have hg2 := hg
        unfold globalFallbackSpec at hg2
        exact median_eq_none.mp hg2
      have hps : pass1Spec amountAcc rows r = none :=
        List.filterMap_eq_nil_iff.mp hnil r hr
      rcases hconv : toNumeric (amountAcc.get r) with _ | q
      · simp only [imputedCellSpec, hconv]
        by_cases hreg : r.location_region = Cell.missing
        · rw [if_pos hreg, hg]
          rfl
        · have hmed : regionMedianSpec amountAcc rows r.location_region = none := by
            simp only [pass1Spec, hconv] at hps
            rwa [if_neg hreg] at hps
          rw [if_neg hreg, hmed, hg]
          rfl
      · exfalso
        simp only [pass1Spec, hconv] at hps
        exact Option.noConfusion hps
    · left
      intro r' hr'
      obtain ⟨r, hr, rfl⟩ := List.mem_map.mp hr'
      show ∃ q, amountCellSpecG amountAcc rows r = Cell.num q
      unfold amountCellSpecG
      rw [if_pos hm]
      rcases hconv : toNumeric (amountAcc.get r) with _ | q
      · simp only [imputedCellSpec, hconv]
        by_cases hreg : r.location_region = Cell.missing
        · rw [if_pos hreg, hg]
          exact ⟨g, rfl⟩
        · rw [if_neg hreg]
          rcases regionMedianSpec amountAcc rows r.location_region with _ | m
          · refine ⟨g, ?_⟩
            show optToCell (globalFallbackSpec amountAcc rows) = Cell.num g
            rw [hg]
            rfl
          · exact ⟨m, rfl⟩
      · exact ⟨q, by simp only [imputedCellSpec, hconv]⟩
  · left
    intro r' hr'
    obtain ⟨r, hr, rfl⟩ := List.mem_map.mp hr'
    show ∃ q, amountCellSpecG amountAcc rows r = Cell.num q
    unfold amountCellSpecG
    rw [if_neg hm]
    have h0 : missingCount amountAcc (convertCol amountAcc rows) = 0 :=
      Nat.eq_zero_of_not_pos hm
    unfold missingCount at h0
    have hall := List.countP_eq_zero.mp h0
    have hmem : amountAcc.set (optToCell (toNumeric (amountAcc.get r))) r ∈
        convertCol amountAcc rows := by
      rw [convertCol_eq_map]
      exact List.mem_map_of_mem _ hr
    have hne := hall _ hmem
    simp only [decide_eq_true_eq] at hne
    rw [amountAcc.get_set] at hne
    rcases hconv : toNumeric (amountAcc.get r) with _ | q
    · rw [hconv] at hne
      exact absurd rfl hne
    · exact ⟨q, rfl⟩

/-- The output of `enhanced_data_cleaning` satisfies the cleaned-table
invariant. -/
theorem clean_pipeline_eq (df : Table) :
    enhanced_data_cleaning df =
      dropDuplicates (treatRegion (treatTimestamp (treatAmount (treatRiskScore
        (treatIp (validateAddresses df)))))) := by
  simp only [enhanced_data_cleaning]

set_option maxHeartbeats 2000000 in
theorem clean_inv (df : Table) : CleanInv (enhanced_data_cleaning df) := by
  rw [clean_pipeline_eq]
  set d1 := validateAddresses df with hd1
  set d2 := treatIp d1 with hd2
  set d3 := treatRiskScore d2 with hd3
  set d4 := treatAmount d3 with hd4
  set d5 := treatTimestamp d4 with hd5
  set d6 := treatRegion d5 with hd6
  have h1 : ∀ r ∈ d1, addrMask r = true :=
    fun r hr => (mem_validateAddresses hr).2
  have h2 : ∀ r ∈ d2, addrMask r = true ∧
      (∃ s, Row.ip_prefix r = Cell.str s ∧ s ∉ ipBadList) := by
    intro r' hr'
    rw [hd2, treatIp_eq] at hr'
    obtain ⟨r, hr, rfl⟩ := List.mem_map.mp hr'
    exact ⟨h1 r hr, ipCellSpec_ok (Row.ip_prefix r)⟩
  have h3 : ∀ r ∈ d3, addrMask r = true ∧
      (∃ s, Row.ip_prefix r = Cell.str s ∧ s ∉ ipBadList) ∧
      cellNumOrMissing r.risk_score := by
    intro r' hr'
    rw [hd3] at hr'
    unfold treatRiskScore at hr'
    rw [riskStageG_eq_map] at hr'
    obtain ⟨r, hr, rfl⟩ := List.mem_map.mp hr'
    exact ⟨(h2 r hr).1, (h2 r hr).2, riskCellSpecG_numOrMissing riskAcc d2 r⟩
  have h4 : ∀ r ∈ d4, addrMask r = true ∧
      (∃ s, Row.ip_prefix r = Cell.str s ∧ s ∉ ipBadList) ∧
      cellNumOrMissing r.risk_score ∧ cellNumOrMissing r.amount := by
    intro r' hr'
    rw [hd4] at hr'
    unfold treatAmount at hr'
    rw [amountStageG_eq_map] at hr'
    obtain ⟨r, hr, rfl⟩ := List.mem_map.mp hr'
    exact ⟨(h3 r hr).1, (h3 r hr).2.1, (h3 r hr).2.2,
      amountCellSpecG_numOrMissing amountAcc d3 r⟩
  have h4all : (∀ r ∈ d4, ∃ q, r.amount = Cell.num q) ∨
      (∀ r ∈ d4, r.amount = Cell.missing) := by
    rw [hd4]
    exact treatAmount_allOrNone d3
  have h5 : ∀ r ∈ d5, addrMask r = true ∧
      (∃ s, Row.ip_prefix r = Cell.str s ∧ s ∉ ipBadList) ∧
      cellNumOrMissing r.risk_score ∧ cellNumOrMissing r.amount ∧
      cellNumOrMissing r.timestamp := by
    intro r' hr'
    rw [hd5] at hr'
    unfold treatTimestamp at hr'
    obtain ⟨r, hr, rfl⟩ := List.mem_map.mp hr'
    exact ⟨(h4 r hr).1, (h4 r hr).2.1, (h4 r hr).2.2.1, (h4 r hr).2.2.2,
      optToCell_numOrMissing _⟩
  have h5all : (∀ r ∈ d5, ∃ q, r.amount = Cell.num q) ∨
      (∀ r ∈ d5, r.amount = Cell.missing) := by
    rcases h4all with hnum | hmiss
    · left
      intro r' hr'
      rw [hd5] at hr'
      unfold treatTimestamp at hr'
      obtain ⟨r, hr, rfl⟩ := List.mem_map.mp hr'
      exact hnum r hr
    · right
      intro r' hr'
      rw [hd5] at hr'
      unfold treatTimestamp at hr'
      obtain ⟨r, hr, rfl⟩ := List.mem_map.mp hr'
      exact hmiss r hr
  have h6 : ∀ r ∈ d6, CleanRowInv r := by
    intro r' hr'
    rw [hd6, treatRegion_eq] at hr'
    have hkeep := List.of_mem_filter hr'
    have hmem := List.mem_of_mem_filter hr'
    obtain ⟨r, hr, rfl⟩ := List.mem_map.mp hmem
    obtain ⟨ha, hip, hrisk, hamt, hts⟩ := h5 r hr
    refine ⟨ha, hip, hrisk, hamt, hts, ?_⟩
    refine ⟨lowerStr (stringifyCell r.location_region), rfl, lowerStr_idem _, ?_⟩
    rw [Bool.not_eq_eq_eq_not, Bool.not_true] at hkeep
    simp only [regionBad, decide_eq_false_iff_not] at hkeep
    exact hkeep
  have h6all : (∀ r ∈ d6, ∃ q, r.amount = Cell.num q) ∨
      (∀ r ∈ d6, r.amount = Cell.missing) := by
    rcases h5all with hnum | hmiss
    · left
      intro r' hr'
      rw [hd6, treatRegion_eq] at hr'
      have hmem := List.mem_of_mem_filter hr'
      obtain ⟨r, hr, rfl⟩ := List.mem_map.mp hmem
      exact hnum r hr
    · right
      intro r' hr'
      rw [hd6, treatRegion_eq] at hr'
      have hmem := List.mem_of_mem_filter hr'
      obtain ⟨r, hr, rfl⟩ := List.mem_map.mp hmem
      exact hmiss r hr
  refine ⟨?_, ?_, ?_⟩
  · intro r hr
    exact h6 r (mem_dedupFirst.mp hr)
  · rcases h6all with hnum | hmiss
    · exact Or.inl (fun r hr => hnum r (mem_dedupFirst.mp hr))
    · exact Or.inr (fun r hr => hmiss r (mem_dedupFirst.mp hr))
  · exact dedupFirst_eq_self_of_nodup (dedupFirst_nodup d6)

/-- C7: the cleaning pipeline is idempotent — applying
`enhanced_data_cleaning` to its own output changes nothing: the output
satisfies every stage's acceptance condition (valid addresses, normalized
ip and region strings, numeric columns already converted, amount column
fully imputed or fully unimputable, no duplicates), so every stage acts
as the identity on a second run. -/
theorem c7_clean_idempotent (df : Table) :
    enhanced_data_cleaning (enhanced_data_cleaning df) = enhanced_data_cleaning df := by
  obtain ⟨hrow, hall, hdedup⟩ := clean_inv df
  rw [clean_pipeline_eq (enhanced_data_cleaning df),
    validateAddresses_id (fun r hr => (hrow r hr).1),
    treatIp_id (fun r hr => (hrow r hr).2.1),
    treatRiskScore_id (fun r hr => (hrow r hr).2.2.1),
    treatAmount_id hall,
    treatTimestamp_id (fun r hr => (hrow r hr).2.2.2.2.1),
    treatRegion_id (fun r hr => (hrow r hr).2.2.2.2.2)]
  exact hdedup

end CaseLocaliza
